import Mathlib

/-!
The multi-hart WFI test `test-wfi-multicore.c`: a shallow embedding.

The C program `test-wfi-multicore.c` is run by every hart.  Its functions are
embedded here in two layers.

* A per-hart, state-passing layer (`Hart`): the hart that executes a function
  owns a view of the shared memory, a clock counting the points at which it
  delays or suspends, and a log of everything it did.  The other harts and the
  hart's own interrupt handler act on the shared memory at those points; they
  are an arbitrary family `env : Nat → Shared → Shared`, the `k`-th member
  being what happens during the `k`-th delay or suspension.  Loops whose exit
  depends on the other harts take a `fuel` bound and yield `Outcome.blocked`
  when it is exhausted.

* A small-step, interleaved layer (`Bar`) for `synchronize_harts`, one step per
  access to shared memory, used for the barrier property across harts.

The number of harts `__METAL_DT_MAX_HARTS` comes from a generated header; it is
the parameter `N` everywhere.
-/

namespace WfiMulticore

/-! ## Types and constants -/

/-- The enum `error_t`: `ERR_NONE=0, ERR_INTERRUPTS_DISABLED, ERR_INTERRUPTS_ENABLED`. -/
inductive error_t where
  | ERR_NONE
  | ERR_INTERRUPTS_DISABLED
  | ERR_INTERRUPTS_ENABLED
  deriving DecidableEq

/-- The integer value of an `error_t` enumerator. -/
def error_t.toInt : error_t → Int
  | .ERR_NONE => 0
  | .ERR_INTERRUPTS_DISABLED => 1
  | .ERR_INTERRUPTS_ENABLED => 2

/-- The enum `test_t`: `TEST_MIE_DISABLED=0, TEST_MIE_ENABLED`. -/
inductive test_t where
  | TEST_MIE_DISABLED
  | TEST_MIE_ENABLED
  deriving DecidableEq

/-- The integer value of a `test_t` enumerator, used as index into `global_error`. -/
def test_t.toNat : test_t → Nat
  | .TEST_MIE_DISABLED => 0
  | .TEST_MIE_ENABLED => 1

/-- The constant `#define NUM_TESTS 2`. -/
def NUM_TESTS : Nat := 2

/-- The constant `#define NUM_WFI 5`. -/
def NUM_WFI : Nat := 5

/-- Two's complement wrap-around of a C `int` (32 bits). -/
def wrap32 (x : Int) : Int := (x + 2147483648) % 4294967296 - 2147483648

/-- Array store `a[i] = v`. -/
def upd {α : Type} (a : Nat → α) (i : Nat) (v : α) : Nat → α :=
  fun k => if k = i then v else a k

/-- The globals of the program together with the interrupt state they are tested
against.  `bool_t` variables only ever hold `FALSE` or `TRUE`. -/
structure Shared where
  /-- The array `int global_error[NUM_TESTS]`. -/
  global_error : Nat → Int
  /-- The flag `bool_t harts_go`. -/
  harts_go : Bool
  /-- The array `volatile bool_t hart_checkin[__METAL_DT_MAX_HARTS]`. -/
  hart_checkin : Nat → Bool
  /-- The array `volatile int msi_count[__METAL_DT_MAX_HARTS]`. -/
  msi_count : Nat → Int
  /-- The array `volatile int wfi_count[__METAL_DT_MAX_HARTS]`. -/
  wfi_count : Nat → Int
  /-- The pending machine software interrupt of each hart. -/
  msip : Nat → Bool
  /-- The global interrupt enable (`mstatus.mie`) of each hart. -/
  mstatus_mie : Nat → Bool
  /-- The software interrupt enable (`mie.msie`) of each hart. -/
  mie_msie : Nat → Bool

/-- The memory at reset: zero-initialised globals, nothing pending or enabled. -/
def Shared.zero : Shared where
  global_error := fun _ => 0
  harts_go := false
  hart_checkin := fun _ => false
  msi_count := fun _ => 0
  wfi_count := fun _ => 0
  msip := fun _ => false
  mstatus_mie := fun _ => false
  mie_msie := fun _ => false

/-- What a hart does, as recorded in its log. -/
inductive Event where
  | wait (count : Int)
  | wfi
  | set_software_interrupt (hartid : Nat)
  | clear_software_interrupt (hartid : Nat)
  | interrupt_global_enable (hartid : Nat)
  | interrupt_global_disable (hartid : Nat)
  | interrupt_software_enable (hartid : Nat)
  | write_csr_mtvec (hartid : Nat)
  | store_global_error (test : test_t) (v : Int)
  | store_harts_go (v : Bool)
  | store_hart_checkin (i : Nat) (v : Bool)
  | store_msi_count (i : Nat) (v : Int)
  | store_wfi_count (i : Nat) (v : Int)
  | call_test_driver_hart_0 (test : test_t)
  | call_test_driver_hart_last (test : test_t)
  | call_test_taker (hartid : Nat) (test : test_t)
  | call_synchronize_harts (hartid : Nat)
  | poll_harts_go
  deriving DecidableEq

/-- What the other harts and the interrupt handler do to the shared memory
during the `k`-th delay or suspension of the hart under consideration. -/
abbrev Env := Nat → Shared → Shared

/-- One hart executing: its view of the memory, the number of delays and
suspensions it went through, and its log, most recent entry first.  An entry is
an event with the memory right after it. -/
structure Hart where
  mem : Shared
  clock : Nat
  log : List (Event × Shared)

/-- A hart that starts executing on memory `m`. -/
def Hart.start (m : Shared) : Hart := { mem := m, clock := 0, log := [] }

/-- What an event does to the memory: a store writes its cell, the interrupt
control functions write their bit, everything else leaves the memory alone. -/
def Event.apply : Event → Shared → Shared
  | .store_global_error test v, m => { m with global_error := upd m.global_error test.toNat v }
  | .store_harts_go v, m => { m with harts_go := v }
  | .store_hart_checkin i v, m => { m with hart_checkin := upd m.hart_checkin i v }
  | .store_msi_count i v, m => { m with msi_count := upd m.msi_count i v }
  | .store_wfi_count i v, m => { m with wfi_count := upd m.wfi_count i v }
  | .set_software_interrupt j, m => { m with msip := upd m.msip j true }
  | .clear_software_interrupt j, m => { m with msip := upd m.msip j false }
  | .interrupt_global_enable j, m => { m with mstatus_mie := upd m.mstatus_mie j true }
  | .interrupt_global_disable j, m => { m with mstatus_mie := upd m.mstatus_mie j false }
  | .interrupt_software_enable j, m => { m with mie_msie := upd m.mie_msie j true }
  | _, m => m

/-- The hart performs `e`. -/
def Hart.exec (e : Event) (h : Hart) : Hart :=
  { h with mem := e.apply h.mem, log := (e, e.apply h.mem) :: h.log }

/-- The hart delays or suspends in `e`; meanwhile the environment acts. -/
def Hart.suspend (e : Event) (env : Env) (h : Hart) : Hart :=
  { mem := env h.clock h.mem, clock := h.clock + 1,
    log := (e, env h.clock h.mem) :: h.log }

/-- The events of a log, oldest first. -/
def events (log : List (Event × Shared)) : List Event := (log.map Prod.fst).reverse

/-- The result of a function that spins or suspends: it returned, or it was
still inside when the fuel ran out.  Either way the state reached is kept. -/
inductive Outcome where
  | done (h : Hart)
  | blocked (h : Hart)

/-- The state an outcome carries. -/
def Outcome.hart : Outcome → Hart
  | .done h => h
  | .blocked h => h

/-- Whether the function returned. -/
def Outcome.returned : Outcome → Bool
  | .done _ => true
  | .blocked _ => false

/-- Sequencing: continue with `k` after a return, stay blocked otherwise. -/
def Outcome.andThen (o : Outcome) (k : Hart → Outcome) : Outcome :=
  match o with
  | .done h => k h
  | .blocked h => .blocked h

/-! ## Interrupt control (declared in `interrupt_util.h`) and delays -/

/-- Modelled from the spec: the body of `set_software_interrupt` is not part of
the sources; "raise(target_core): set the pending-wake condition for a specific
core". -/
def set_software_interrupt (hartid : Nat) : Hart → Hart :=
  Hart.exec (.set_software_interrupt hartid)

/-- Modelled from the spec: the body of `clear_software_interrupt` is not part of
the sources; "clear(target_core): clear the pending-wake condition for a specific
core", idempotent. -/
def clear_software_interrupt (hartid : Nat) : Hart → Hart :=
  Hart.exec (.clear_software_interrupt hartid)

/-- Modelled from the spec: the body of `interrupt_global_enable` is not part of
the sources; "set the master interrupt-delivery flag for the calling core". -/
def interrupt_global_enable (hartid : Nat) : Hart → Hart :=
  Hart.exec (.interrupt_global_enable hartid)

/-- Modelled from the spec: the body of `interrupt_global_disable` is not part of
the sources; "clear the master interrupt-delivery flag for the calling core". -/
def interrupt_global_disable (hartid : Nat) : Hart → Hart :=
  Hart.exec (.interrupt_global_disable hartid)

/-- Modelled from the spec: the body of `interrupt_software_enable` is not part of
the sources; "enable_source(kind): gate a specific interrupt class". -/
def interrupt_software_enable (hartid : Nat) : Hart → Hart :=
  Hart.exec (.interrupt_software_enable hartid)

/-- The function `wait`: `while (count-- > 0);`, a delay with no effect on memory of
its own, during which the environment acts. -/
def wait (count : Int) (env : Env) : Hart → Hart :=
  Hart.suspend (.wait count) env

/-- The instruction `wfi`, assumed to resume: the hart suspends, the environment
acts, the hart continues. -/
def wfi (env : Env) : Hart → Hart :=
  Hart.suspend .wfi env

/-- The interrupt handler `software_handler` of hart `hartid`, a step of that
hart's environment: `msi_count[hartid] += 1;` then the pending bit is cleared. -/
def software_handler (hartid : Nat) (m : Shared) : Shared :=
  { m with msi_count := upd m.msi_count hartid (wrap32 (m.msi_count hartid + 1)),
           msip := upd m.msip hartid false }

/-! ## Loops -/

/-- The loop `for (j = lo; j < hi; j++) body(j);`. -/
def forLoop {σ : Type} (lo hi : Nat) (body : Nat → σ → σ) (s : σ) : σ :=
  (List.range' lo (hi - lo)).foldl (fun s j => body j s) s

/-- The loop `for (j = ...; ...; j++) { if (fails j) { error = err; break; } }`
at index `j` with `n` iterations left. -/
def check_loop (fails : Nat → Bool) (err : error_t) : Nat → Nat → error_t → error_t
  | _, 0, error => error
  | j, n + 1, error => if fails j then err else check_loop fails err (j + 1) n error

/-! ## The test drivers -/

/-- The function `test_driver_hart_0`, run by hart 0 as giver of the first
sub-test.  Returns the verdict and the state reached. -/
def test_driver_hart_0 (N : Nat) (test : test_t) (env : Env) (h : Hart) : error_t × Hart :=
  let h := h.exec (.call_test_driver_hart_0 test)
  let error := error_t.ERR_NONE
  -- wait(500);
  let h := wait 500 env h
  -- harts_go = FALSE;
  let h := h.exec (.store_harts_go false)
  -- for (i=0; i<NUM_WFI; i++) { for (j=1; j<N; j++) set_software_interrupt(j); wait(500); }
  let h := forLoop 0 NUM_WFI (fun _ h => wait 500 env (forLoop 1 N set_software_interrupt h)) h
  if test = .TEST_MIE_DISABLED then
    -- for (j=1; j<N; j++) if ((wfi_count[j] != NUM_WFI) && (msi_count[j] == 0)) ...
    (check_loop (fun j => decide (h.mem.wfi_count j ≠ NUM_WFI) && decide (h.mem.msi_count j = 0))
      .ERR_INTERRUPTS_DISABLED 1 (N - 1) error, h)
  else
    -- for (j=1; j<N; j++) if ((wfi_count[j] != NUM_WFI) || (msi_count[j] != NUM_WFI)) ...
    (check_loop (fun j => decide (h.mem.wfi_count j ≠ NUM_WFI) || decide (h.mem.msi_count j ≠ NUM_WFI))
      .ERR_INTERRUPTS_ENABLED 1 (N - 1) error, h)

/-- The function `test_driver_hart_last`, run by hart `N-1` as giver of the second
sub-test.  Returns the verdict and the state reached. -/
def test_driver_hart_last (N : Nat) (test : test_t) (env : Env) (h : Hart) : error_t × Hart :=
  let h := h.exec (.call_test_driver_hart_last test)
  let error := error_t.ERR_NONE
  -- harts_go = FALSE;
  let h := h.exec (.store_harts_go false)
  -- wait(500);
  let h := wait 500 env h
  -- for (i=0; i<NUM_WFI; i++) { for (j=0; j<N-1; j++) set_software_interrupt(j); wait(500); }
  let h := forLoop 0 NUM_WFI (fun _ h => wait 500 env (forLoop 0 (N - 1) set_software_interrupt h)) h
  if test = .TEST_MIE_DISABLED then
    -- for (j=0; j<N-1; j++) if ((wfi_count[j] != NUM_WFI) && (msi_count[j] == 0)) ...
    (check_loop (fun j => decide (h.mem.wfi_count j ≠ NUM_WFI) && decide (h.mem.msi_count j = 0))
      .ERR_INTERRUPTS_DISABLED 0 (N - 1) error, h)
  else
    -- for (j=0; j<N-1; j++) if ((wfi_count[j] != NUM_WFI) || (msi_count[j] != NUM_WFI)) ...
    (check_loop (fun j => decide (h.mem.wfi_count j ≠ NUM_WFI) || decide (h.mem.msi_count j ≠ NUM_WFI))
      .ERR_INTERRUPTS_ENABLED 0 (N - 1) error, h)

/-! ## The test taker -/

/-- One iteration of the loop of `test_taker`. -/
def taker_iteration (hartid : Nat) (test : test_t) (env : Env) (h : Hart) : Hart :=
  -- __asm__ volatile ("wfi");
  let h := wfi env h
  -- wfi_count[hartid] += 1;
  let h := h.exec (.store_wfi_count hartid (wrap32 (h.mem.wfi_count hartid + 1)))
  -- if (test == TEST_MIE_DISABLED) clear_software_interrupt(hartid);
  if test = .TEST_MIE_DISABLED then clear_software_interrupt hartid h else h

/-- The loop of `test_taker`: `while (wfi_count[hartid] < NUM_WFI) { ... }`.  The fuel
bounds the number of suspensions. -/
def test_taker_loop (hartid : Nat) (test : test_t) (env : Env) : Nat → Hart → Outcome
  | 0, h => if h.mem.wfi_count hartid < NUM_WFI then .blocked h else .done h
  | fuel + 1, h =>
    if h.mem.wfi_count hartid < NUM_WFI then
      test_taker_loop hartid test env fuel (taker_iteration hartid test env h)
    else .done h

/-- The function `test_taker`, run by every hart under test. -/
def test_taker (hartid : Nat) (test : test_t) (env : Env) (fuel : Nat) (h : Hart) : Outcome :=
  let h := h.exec (.call_test_taker hartid test)
  -- msi_count[hartid] = 0x0;
  let h := h.exec (.store_msi_count hartid 0)
  -- wfi_count[hartid] = 0x0;
  let h := h.exec (.store_wfi_count hartid 0)
  test_taker_loop hartid test env fuel h

/-! ## The barrier, as seen by one hart -/

/-- The function `hart_checkin_count`: `for (i=0; i<N; i++) if (hart_checkin[i] == TRUE) count += 1;`
read off the memory `m`. -/
def hart_checkin_count (N : Nat) (m : Shared) : Int :=
  forLoop 0 N (fun i count => if m.hart_checkin i = true then wrap32 (count + 1) else count) 0

/-- The loop of hart 0 in `synchronize_harts`:
`while (harts_go == FALSE) { if (hart_checkin_count() == N) harts_go = TRUE; }`.
Each iteration first lets the environment act (the check-ins of the other harts
become visible), then counts and stores on that memory. -/
def sync_loop_0 (N : Nat) (env : Env) : Nat → Hart → Outcome
  | 0, h => if h.mem.harts_go = false then .blocked h else .done h
  | fuel + 1, h =>
    if h.mem.harts_go = false then
      let h := h.suspend .poll_harts_go env
      let h := if hart_checkin_count N h.mem = (N : Int) then h.exec (.store_harts_go true) else h
      sync_loop_0 N env fuel h
    else .done h

/-- The loop of a hart other than 0 in `synchronize_harts`:
`while (harts_go == FALSE) { wait(hartid); }`. -/
def sync_loop_n (hartid : Nat) (env : Env) : Nat → Hart → Outcome
  | 0, h => if h.mem.harts_go = false then .blocked h else .done h
  | fuel + 1, h =>
    if h.mem.harts_go = false then sync_loop_n hartid env fuel (wait hartid env h)
    else .done h

/-- The function `synchronize_harts`. -/
def synchronize_harts (N hartid : Nat) (env : Env) (fuel : Nat) (h : Hart) : Outcome :=
  let h := h.exec (.call_synchronize_harts hartid)
  -- hart_checkin[hartid] = TRUE;
  let h := h.exec (.store_hart_checkin hartid true)
  (if hartid = 0 then sync_loop_0 N env fuel h else sync_loop_n hartid env fuel h).andThen fun h =>
  -- hart_checkin[hartid] = FALSE;
  .done (h.exec (.store_hart_checkin hartid false))

/-! ## Test orchestration -/

/-- The function `test_init`. -/
def test_init (hartid : Nat) (h : Hart) : Hart :=
  let h := interrupt_global_disable hartid h
  -- write_csr (mtvec, (mtvec_base | mode));
  let h := h.exec (.write_csr_mtvec hartid)
  let h := clear_software_interrupt hartid h
  interrupt_software_enable hartid h

/-- The first sub-test of `test_wfi` (hart 0 gives, the others take).  Returns the
local variable `error` with the outcome. -/
def subtest_1 (N hartid : Nat) (test : test_t) (env : Env) (fuel : Nat) (h : Hart) :
    error_t × Outcome :=
  if hartid = 0 then
    -- error = test_driver_hart_0(test); global_error[test] = error;
    let r := test_driver_hart_0 N test env h
    (r.1, .done (r.2.exec (.store_global_error test r.1.toInt)))
  else
    -- test_taker(hartid, test);
    (.ERR_NONE, test_taker hartid test env fuel h)

/-- The second sub-test of `test_wfi` (hart `N-1` gives, the others take), entered
with the local variable `error` as the first sub-test left it. -/
def subtest_2 (N hartid : Nat) (test : test_t) (env : Env) (fuel : Nat) (error : error_t)
    (h : Hart) : Outcome :=
  if error = .ERR_NONE then
    if (hartid : Int) = (N : Int) - 1 then
      -- error = test_driver_hart_last(test); global_error[test] = error;
      let r := test_driver_hart_last N test env h
      .done (r.2.exec (.store_global_error test r.1.toInt))
    else
      -- test_taker(hartid, test);
      test_taker hartid test env fuel h
  else .done h

/-- The function `test_wfi` up to and including its barrier: the interrupt
configuration, the first sub-test and `synchronize_harts`.  Returns the local
variable `error` with the outcome. -/
def test_wfi_to_barrier (N hartid : Nat) (test : test_t) (env : Env) (fuel : Nat) (h : Hart) :
    error_t × Outcome :=
  -- error_t error = ERR_NONE;
  let h := if test = .TEST_MIE_DISABLED then interrupt_global_disable hartid h
    else interrupt_global_enable hartid h
  let r := subtest_1 N hartid test env fuel h
  (r.1, r.2.andThen (synchronize_harts N hartid env fuel))

/-- The function `test_wfi`, run by every hart. -/
def test_wfi (N hartid : Nat) (test : test_t) (env : Env) (fuel : Nat) (h : Hart) : Outcome :=
  let r := test_wfi_to_barrier N hartid test env fuel h
  r.2.andThen (subtest_2 N hartid test env fuel r.1)

/-- The loop `while (hartid != 0) { wfi; }` that parks every hart but hart 0. -/
def park (hartid : Nat) (env : Env) : Nat → Hart → Outcome
  | 0, h => if hartid ≠ 0 then .blocked h else .done h
  | fuel + 1, h => if hartid ≠ 0 then park hartid env fuel (wfi env h) else .done h

/-- Everything `main` does before its `return` statement. -/
def main_body (N hartid : Nat) (env : Env) (fuel : Nat) (h : Hart) : Outcome :=
  let h := test_init hartid h
  (((((synchronize_harts N hartid env fuel h).andThen
    (test_wfi N hartid .TEST_MIE_DISABLED env fuel)).andThen
    (synchronize_harts N hartid env fuel)).andThen
    (test_wfi N hartid .TEST_MIE_ENABLED env fuel)).andThen
    (synchronize_harts N hartid env fuel)).andThen
    (park hartid env fuel)

/-- The function `main`: the value of `return (global_error[0]+global_error[1]);` with
the state at that point, or nothing when the hart never gets there. -/
def main (N hartid : Nat) (env : Env) (fuel : Nat) (h : Hart) : Option (Int × Hart) :=
  match main_body N hartid env fuel h with
  | .done h => some (wrap32 (h.mem.global_error 0 + h.mem.global_error 1), h)
  | .blocked _ => none

/-! ## Footprints

`Run A env h h'` says that `h'` is reached from `h` by delays and suspensions
under `env` and by events `e` with `A e m`, where `m` is the memory right after
`e`.  Every function above has such a footprint, and frame properties are read
off it. -/

/-- The events in which a hart delays or suspends. -/
def Event.suspends : Event → Bool
  | .wait _ => true
  | .wfi => true
  | .poll_harts_go => true
  | _ => false

/-- The hart got from the first state to the second by suspending under `env`
and by performing events allowed by `A`. -/
inductive Run (A : Event → Shared → Prop) (env : Env) : Hart → Hart → Prop where
  | refl (h : Hart) : Run A env h h
  | exec {h h' : Hart} (e : Event) : Run A env h h' → A e (e.apply h'.mem) →
      Run A env h (h'.exec e)
  | suspend {h h' : Hart} (e : Event) : Run A env h h' → e.suspends = true →
      Run A env h (h'.suspend e env)

/-- What `test_taker(hartid, test)` may do. -/
def taker_may (hartid : Nat) (test : test_t) (e : Event) (_ : Shared) : Prop :=
  match e with
  | .call_test_taker i t => i = hartid ∧ t = test
  | .store_msi_count i v => i = hartid ∧ v = 0
  | .store_wfi_count i _ => i = hartid
  | .clear_software_interrupt i => i = hartid ∧ test = .TEST_MIE_DISABLED
  | _ => False

/-- What a test driver run by hart `giver` may do. -/
def driver_may (N giver : Nat) (e : Event) (_ : Shared) : Prop :=
  match e with
  | .call_test_driver_hart_0 _ => giver = 0
  | .call_test_driver_hart_last _ => giver = N - 1
  | .store_harts_go v => v = false
  | .set_software_interrupt j => j < N ∧ j ≠ giver
  | _ => False

/-- What `synchronize_harts(hartid)` may do; `m` is the memory right after the event. -/
def sync_may (N hartid : Nat) (e : Event) (m : Shared) : Prop :=
  match e with
  | .call_synchronize_harts i => i = hartid
  | .store_hart_checkin i _ => i = hartid
  | .store_harts_go v => v = true ∧ hartid = 0 ∧ hart_checkin_count N m = (N : Int)
  | _ => False

/-- A value a record `global_error[test]` may hold: `ERR_NONE` or the code of that test. -/
def record_ok (test : test_t) (v : Int) : Prop :=
  v = error_t.ERR_NONE.toInt ∨
    v = (match test with
      | .TEST_MIE_DISABLED => error_t.ERR_INTERRUPTS_DISABLED.toInt
      | .TEST_MIE_ENABLED => error_t.ERR_INTERRUPTS_ENABLED.toInt)

/-- What `test_wfi(hartid, test)` may do. -/
def test_wfi_may (N hartid : Nat) (test : test_t) (e : Event) (m : Shared) : Prop :=
  taker_may hartid test e m ∨ sync_may N hartid e m ∨
  ((hartid = 0 ∨ hartid = N - 1) ∧ driver_may N hartid e m) ∨
  match e with
  | .interrupt_global_enable i => i = hartid
  | .interrupt_global_disable i => i = hartid
  | .store_global_error t v => t = test ∧ record_ok test v ∧ (hartid = 0 ∨ hartid = N - 1)
  | _ => False

/-- What `main` may do on hart `hartid`. -/
def main_may (N hartid : Nat) (e : Event) (m : Shared) : Prop :=
  test_wfi_may N hartid .TEST_MIE_DISABLED e m ∨ test_wfi_may N hartid .TEST_MIE_ENABLED e m ∨
  match e with
  | .interrupt_global_disable i => i = hartid
  | .write_csr_mtvec i => i = hartid
  | .clear_software_interrupt i => i = hartid
  | .interrupt_software_enable i => i = hartid
  | _ => False

/-- The values stored to `harts_go` according to a log, most recent first. -/
def stores_go : List (Event × Shared) → List Bool
  | [] => []
  | (.store_harts_go v, _) :: l => v :: stores_go l
  | _ :: l => stores_go l

/-- The number of `set_software_interrupt(j)` calls in a log. -/
def raised (j : Nat) (log : List (Event × Shared)) : Nat :=
  log.countP fun x => decide (x.1 = .set_software_interrupt j)

/-- The number of calls of `test_taker` in a log. -/
def taker_calls (log : List (Event × Shared)) : Nat :=
  log.countP fun x => match x.1 with
    | .call_test_taker _ _ => true
    | _ => false

/-- The number of calls of `test_driver_hart_last` in a log. -/
def driver_last_calls (log : List (Event × Shared)) : Nat :=
  log.countP fun x => match x.1 with
    | .call_test_driver_hart_last _ => true
    | _ => false

/-- The number of `wfi` suspensions in a log. -/
def wfi_calls (log : List (Event × Shared)) : Nat :=
  log.countP fun x => decide (x.1 = .wfi)

/-! ## The barrier across harts: interleaved steps

Every hart runs `synchronize_harts`; a step of a hart is one access to shared
memory.  Between two calls a giver clears `harts_go` (the store in
`test_driver_hart_0`, `test_driver_hart_last`); whatever else happens between
two calls does not touch `harts_go` or `hart_checkin`. -/

/-- Where a hart is with respect to `synchronize_harts`. -/
inductive SyncPc where
  /-- Not inside `synchronize_harts`. -/
  | outside
  /-- At the loop test `harts_go == FALSE`. -/
  | poll
  /-- Hart 0 inside `hart_checkin_count`, about to read `hart_checkin[i]` with `count = c`. -/
  | count (i : Nat) (c : Int)
  /-- Hart 0 at `if (hart_checkin_count() == N)` with the count returned. -/
  | test (c : Int)
  /-- Inside `wait(hartid)`. -/
  | waiting
  /-- At `hart_checkin[hartid] = FALSE`. -/
  | checkout
  deriving DecidableEq

/-- All harts together: the memory, where each hart is, and how often each hart
has called and has returned from `synchronize_harts`. -/
structure Bar where
  mem : Shared
  pc : Nat → SyncPc
  calls : Nat → Nat
  rets : Nat → Nat

/-- The state at reset: zeroed memory, nobody has called yet. -/
def Bar.reset : Bar where
  mem := Shared.zero
  pc := fun _ => .outside
  calls := fun _ => 0
  rets := fun _ => 0

/-- One step of hart `h` in `synchronize_harts`, calling it when outside. -/
def sync_step (N h : Nat) (s : Bar) : Bar :=
  match s.pc h with
  | .outside =>
    -- hart_checkin[hartid] = TRUE;
    { s with mem := (Event.store_hart_checkin h true).apply s.mem, pc := upd s.pc h .poll,
             calls := upd s.calls h (s.calls h + 1) }
  | .poll =>
    -- while (harts_go == FALSE)
    if s.mem.harts_go = false then
      { s with pc := upd s.pc h (if h = 0 then .count 0 0 else .waiting) }
    else { s with pc := upd s.pc h .checkout }
  | .count i c =>
    -- for (i=0; i<N; i++) if (hart_checkin[i] == TRUE) count += 1;
    if i < N then
      let c := if s.mem.hart_checkin i = true then wrap32 (c + 1) else c
      { s with pc := upd s.pc h (.count (i + 1) c) }
    else { s with pc := upd s.pc h (.test c) }
  | .test c =>
    -- if (hart_checkin_count() == N) harts_go = TRUE;
    { s with mem := if c = (N : Int) then (Event.store_harts_go true).apply s.mem else s.mem,
             pc := upd s.pc h .poll }
  | .waiting => { s with pc := upd s.pc h .poll }
  | .checkout =>
    -- hart_checkin[hartid] = FALSE;
    { s with mem := (Event.store_hart_checkin h false).apply s.mem, pc := upd s.pc h .outside,
             rets := upd s.rets h (s.rets h + 1) }

/-- Whether hart `h`, back from its `k`-th call of `synchronize_harts`, runs a test
driver next: hart 0 after the calls 1 and 3 (first sub-test of either test), hart
`N-1` after the calls 2 and 4 (second sub-test). -/
def giver_at (N h k : Nat) : Bool :=
  (decide (h = 0) && (decide (k = 1) || decide (k = 3))) ||
    (decide (h + 1 = N) && (decide (k = 2) || decide (k = 4)))

/-- What the scheduler picks: a step of hart `h` in `synchronize_harts`, or the
store `harts_go = FALSE` of the driver that hart `h` runs. -/
inductive Action where
  | sync (h : Nat)
  | giver_clear (h : Nat)
  deriving DecidableEq

/-- The effect of an action; an action that is not possible leaves the state alone.
The program calls `synchronize_harts` five times on every hart. -/
def act (N : Nat) (s : Bar) (a : Action) : Bar :=
  match a with
  | .sync h =>
    if h < N ∧ (s.pc h ≠ .outside ∨ s.rets h < 5) then sync_step N h s else s
  | .giver_clear h =>
    if h < N ∧ s.pc h = .outside ∧ giver_at N h (s.rets h) = true then
      { s with mem := (Event.store_harts_go false).apply s.mem }
    else s

/-- The state after a schedule. -/
def run (N : Nat) (sched : List Action) (s : Bar) : Bar :=
  sched.foldl (act N) s

/-- What holds in every state reached from a drained barrier with `k` completed cycles:
whoever is counted, released or back has been preceded by the check-in of every hart. -/
structure BarInv (N k : Nat) (s : Bar) : Prop where
  calls_ge : ∀ g, g < N → k ≤ s.calls g
  flag : ∀ g, g < N → s.mem.hart_checkin g = true → k < s.calls g
  go : s.mem.harts_go = true → ∀ g, g < N → k < s.calls g
  count : ∀ h i c, s.pc h = .count i c →
    0 ≤ c ∧ c ≤ (i : Int) ∧ i ≤ N ∧ (c = (i : Int) → ∀ g, g < i → k < s.calls g)
  test : ∀ h c, s.pc h = .test c → c = (N : Int) → ∀ g, g < N → k < s.calls g
  checkout : ∀ h, s.pc h = .checkout → ∀ g, g < N → k < s.calls g
  rets : ∀ h, h < N → k < s.rets h → ∀ g, g < N → k < s.calls g

/-! ## Concrete inputs -/

/-- An environment that does nothing: no other hart moves, no handler runs. -/
def noenv : Env := fun _ m => m

/-- Counters at the check of a giver: hart 1 woke three times, the others five times, no
handler ran. -/
def mem_c1 : Shared := { Shared.zero with wfi_count := fun j => if j = 1 then 3 else 5 }

/-- Counters of the end-to-end scenario: every hart woke `NUM_WFI` times, no handler ran. -/
def mem_w1 : Shared := { Shared.zero with wfi_count := fun _ => 5 }

/-- A memory in which the previous barrier cycle has set `harts_go`. -/
def mem_go : Shared := { Shared.zero with harts_go := true }

/-- An environment in which every hart has checked in. -/
def env_all_in : Env := fun _ m => { m with hart_checkin := fun _ => true }

/-- An environment in which the interrupt handler of `hartid` runs once per suspension. -/
def handler_env (hartid : Nat) : Env := fun _ m => software_handler hartid m

/-- Hart 1 as seen by hart 0 of two: it is checked in and has woken `NUM_WFI` times, and
its handler never ran. -/
def env_c3 : Env := fun _ m =>
  { m with hart_checkin := upd m.hart_checkin 1 true, wfi_count := upd m.wfi_count 1 5 }

/-- Hart 1 as seen by hart 0 of two: it checks in and never wakes. -/
def env_c5 : Env := fun _ m => { m with hart_checkin := upd m.hart_checkin 1 true }

/-- An environment in which hart 0 has released the barrier. -/
def env_w5 : Env := fun _ m => { m with harts_go := true }

/-- The memory at the start of the enabled test: hart 0 has taken the disabled test before
(`wfi_count[0] = NUM_WFI`, `msi_count[0] = 0`). -/
def mem_c4 : Shared := { Shared.zero with wfi_count := fun j => if j = 0 then 5 else 0 }

/-- Hart 0 and the handlers as seen by hart 1 of two in the enabled test: the handler of
hart 1 does not run during its five suspensions, then hart 0 records the failure of the first
sub-test and releases the barrier, and from then on the handler of hart 0 serves every
interrupt raised for it. -/
def env_c4 : Env := fun k m =>
  if k < 5 then m
  else if k = 5 then
    (Event.store_harts_go true).apply ((Event.store_global_error .TEST_MIE_ENABLED 2).apply m)
  else if m.msip 0 = true then software_handler 0 m else m

/-- A schedule for two harts: hart 1 checks in; hart 0 checks in, counts, releases and
leaves (first cycle); hart 0 clears `harts_go` in `test_driver_hart_0`; hart 0 checks in
again, counts the stale flag of hart 1, releases and leaves (second cycle). -/
def sched_c7 : List Action :=
  [.sync 1, .sync 0, .sync 0, .sync 0, .sync 0, .sync 0, .sync 0, .sync 0, .sync 0,
   .giver_clear 0,
   .sync 0, .sync 0, .sync 0, .sync 0, .sync 0, .sync 0, .sync 0, .sync 0]

/-- A schedule for two harts: hart 1 checks in; hart 0 checks in, counts, releases and
leaves. -/
def sched_w7 : List Action :=
  [.sync 1, .sync 0, .sync 0, .sync 0, .sync 0, .sync 0, .sync 0, .sync 0, .sync 0]

/-! # Theorems -/

/-! ## Footprints -/

/-- Footprints compose. -/
theorem Run.trans {A : Event → Shared → Prop} {env : Env} {h1 h2 h3 : Hart}
    (r1 : Run A env h1 h2) (r2 : Run A env h2 h3) : Run A env h1 h3 := by
  induction r2 with
  | refl => exact r1
  | exec e _ hA ih => exact Run.exec e ih hA
  | suspend e _ hs ih => exact Run.suspend e ih hs

/-- A footprint may be widened. -/
theorem Run.mono {A B : Event → Shared → Prop} {env : Env} {h h' : Hart}
    (hAB : ∀ e m, A e m → B e m) (r : Run A env h h') : Run B env h h' := by
  induction r with
  | refl => exact Run.refl _
  | exec e _ hA ih => exact Run.exec e ih (hAB _ _ hA)
  | suspend e _ hs ih => exact Run.suspend e ih hs

/-- A single allowed event. -/
theorem Run.exec1 {A : Event → Shared → Prop} {env : Env} {h : Hart} (e : Event)
    (hA : A e (e.apply h.mem)) : Run A env h (h.exec e) :=
  Run.exec e (Run.refl h) hA

/-- A single suspension. -/
theorem Run.suspend1 {A : Event → Shared → Prop} {env : Env} {h : Hart} (e : Event)
    (hs : e.suspends = true) : Run A env h (h.suspend e env) :=
  Run.suspend e (Run.refl h) hs

/-- Along a footprint the log only grows, by allowed events and suspensions. -/
theorem Run.log_grows {A : Event → Shared → Prop} {env : Env} {h h' : Hart}
    (r : Run A env h h') :
    ∃ new, h'.log = new ++ h.log ∧ ∀ x ∈ new, A x.1 x.2 ∨ x.1.suspends = true := by
  induction r with
  | refl => exact ⟨[], rfl, by simp⟩
  | @exec h1 e _ hA ih =>
    obtain ⟨new, hl, hn⟩ := ih
    refine ⟨(e, e.apply h1.mem) :: new, by simp [Hart.exec, hl], ?_⟩
    intro x hx
    rcases List.mem_cons.mp hx with rfl | hx
    · exact Or.inl hA
    · exact hn x hx
  | @suspend h1 e _ hs ih =>
    obtain ⟨new, hl, hn⟩ := ih
    refine ⟨(e, env h1.clock h1.mem) :: new, by simp [Hart.suspend, hl], ?_⟩
    intro x hx
    rcases List.mem_cons.mp hx with rfl | hx
    · exact Or.inr hs
    · exact hn x hx

/-- A property of the memory that the environment and the allowed events keep holds
at the end of a footprint. -/
theorem Run.invariant {A : Event → Shared → Prop} {env : Env} {h h' : Hart}
    (P : Shared → Prop) (henv : ∀ k m, P m → P (env k m))
    (hA : ∀ e m, A e (e.apply m) → P m → P (e.apply m))
    (r : Run A env h h') (h0 : P h.mem) : P h'.mem := by
  induction r with
  | refl => exact h0
  | exec e _ hAe ih => exact hA e _ hAe ih
  | suspend e _ _ ih => exact henv _ _ ih

/-- Footprint of a sequence. -/
theorem Run.andThen {A : Event → Shared → Prop} {env : Env} {h : Hart} {o : Outcome}
    {k : Hart → Outcome} (r : Run A env h o.hart) (rk : ∀ h1, Run A env h1 (k h1).hart) :
    Run A env h (o.andThen k).hart := by
  cases o with
  | done h1 => exact r.trans (rk h1)
  | blocked h1 => exact r

/-- Footprint of a loop over a list of indices. -/
theorem Run.foldl {A : Event → Shared → Prop} {env : Env} (body : Nat → Hart → Hart)
    (l : List Nat) (hb : ∀ j ∈ l, ∀ h1, Run A env h1 (body j h1)) (h : Hart) :
    Run A env h (l.foldl (fun s j => body j s) h) := by
  induction l generalizing h with
  | nil => exact Run.refl h
  | cons a l ih =>
    simp only [List.foldl_cons]
    exact (hb a (List.mem_cons_self _ _) h).trans
      (ih (fun j hj h1 => hb j (List.mem_cons_of_mem _ hj) h1) _)

/-- Footprint of a `for` loop. -/
theorem Run.forLoop {A : Event → Shared → Prop} {env : Env} (lo hi : Nat)
    (body : Nat → Hart → Hart)
    (hb : ∀ j, lo ≤ j → j < hi → ∀ h1, Run A env h1 (body j h1)) (h : Hart) :
    Run A env h (forLoop lo hi body h) := by
  unfold WfiMulticore.forLoop
  apply Run.foldl
  intro j hj h1
  rw [List.mem_range'_1] at hj
  exact hb j hj.1 (by omega) h1

/-! ## Footprints of the functions -/

/-- Footprint of one iteration of the taker. -/
theorem taker_iteration_run (hartid : Nat) (test : test_t) (env : Env) (h : Hart) :
    Run (taker_may hartid test) env h (taker_iteration hartid test env h) := by
  unfold taker_iteration
  have r1 : Run (taker_may hartid test) env h (wfi env h) := Run.suspend1 .wfi rfl
  have r2 : Run (taker_may hartid test) env h
      ((wfi env h).exec (.store_wfi_count hartid (wrap32 ((wfi env h).mem.wfi_count hartid + 1)))) :=
    Run.exec _ r1 (by simp [taker_may])
  by_cases ht : test = .TEST_MIE_DISABLED
  · simp only [ht, if_true]
    exact Run.exec _ (ht ▸ r2) (by simp [taker_may])
  · simp only [ht, if_false]
    exact r2

/-- Footprint of the loop of `test_taker`. -/
theorem test_taker_loop_run (hartid : Nat) (test : test_t) (env : Env) (fuel : Nat) (h : Hart) :
    Run (taker_may hartid test) env h (test_taker_loop hartid test env fuel h).hart := by
  induction fuel generalizing h with
  | zero =>
    unfold test_taker_loop
    split <;> exact Run.refl h
  | succ fuel ih =>
    unfold test_taker_loop
    split
    · exact (taker_iteration_run hartid test env h).trans (ih _)
    · exact Run.refl h

/-- Footprint of `test_taker`. -/
theorem test_taker_run (hartid : Nat) (test : test_t) (env : Env) (fuel : Nat) (h : Hart) :
    Run (taker_may hartid test) env h (test_taker hartid test env fuel h).hart := by
  unfold test_taker
  refine Run.trans ?_ (test_taker_loop_run hartid test env fuel _)
  exact Run.exec _ (Run.exec _ (Run.exec1 _ (by simp [taker_may])) (by simp [taker_may]))
    (by simp [taker_may])

/-- Footprint of the loop of hart 0 in `synchronize_harts`. -/
theorem sync_loop_0_run (N : Nat) (env : Env) (fuel : Nat) (h : Hart) :
    Run (sync_may N 0) env h (sync_loop_0 N env fuel h).hart := by
  induction fuel generalizing h with
  | zero =>
    unfold sync_loop_0
    split <;> exact Run.refl h
  | succ fuel ih =>
    unfold sync_loop_0
    split
    · refine Run.trans ?_ (ih _)
      have r1 : Run (sync_may N 0) env h (h.suspend .poll_harts_go env) := Run.suspend1 _ rfl
      split
      · rename_i hc
        exact Run.exec _ r1 (by simpa [sync_may, Event.apply, hart_checkin_count] using hc)
      · exact r1
    · exact Run.refl h

/-- Footprint of the loop of the other harts in `synchronize_harts`. -/
theorem sync_loop_n_run (N hartid : Nat) (env : Env) (fuel : Nat) (h : Hart) :
    Run (sync_may N hartid) env h (sync_loop_n hartid env fuel h).hart := by
  induction fuel generalizing h with
  | zero =>
    unfold sync_loop_n
    split <;> exact Run.refl h
  | succ fuel ih =>
    unfold sync_loop_n
    split
    · exact Run.trans (Run.suspend1 (.wait hartid) rfl) (ih _)
    · exact Run.refl h

/-- Footprint of `synchronize_harts`. -/
theorem synchronize_harts_run (N hartid : Nat) (env : Env) (fuel : Nat) (h : Hart) :
    Run (sync_may N hartid) env h (synchronize_harts N hartid env fuel h).hart := by
  unfold synchronize_harts
  have r0 : Run (sync_may N hartid) env h
      ((h.exec (.call_synchronize_harts hartid)).exec (.store_hart_checkin hartid true)) :=
    Run.exec _ (Run.exec1 _ (by simp [sync_may])) (by simp [sync_may])
  refine Run.andThen ?_ ?_
  · refine r0.trans ?_
    by_cases h0 : hartid = 0
    · subst h0
      simp only [if_true]
      exact sync_loop_0_run N env fuel _
    · simp only [h0, if_false]
      exact sync_loop_n_run N hartid env fuel _
  · intro h1
    exact Run.exec1 _ (by simp [sync_may])

/-- Footprint of `test_driver_hart_0`. -/
theorem test_driver_hart_0_run (N : Nat) (test : test_t) (env : Env) (h : Hart) :
    Run (driver_may N 0) env h (test_driver_hart_0 N test env h).2 := by
  have r : Run (driver_may N 0) env h
      (WfiMulticore.forLoop 0 NUM_WFI
        (fun _ h => wait 500 env (WfiMulticore.forLoop 1 N set_software_interrupt h))
        (((h.exec (.call_test_driver_hart_0 test)).suspend (.wait 500) env).exec
          (.store_harts_go false))) := by
    refine Run.trans (Run.exec (.store_harts_go false) (Run.suspend (.wait 500)
      (Run.exec1 (.call_test_driver_hart_0 test) ?_) rfl) ?_) ?_
    · simp [driver_may]
    · simp [driver_may]
    · apply Run.forLoop
      intro _ _ _ h1
      refine Run.suspend (.wait 500) ?_ rfl
      apply Run.forLoop
      intro j hj1 hj2 h2
      exact Run.exec1 (.set_software_interrupt j) (by simp only [driver_may]; omega)
  unfold test_driver_hart_0
  by_cases ht : test = .TEST_MIE_DISABLED
  · simp only [ht, if_true]
    exact ht ▸ r
  · simp only [ht, if_false]
    exact r

/-- Footprint of `test_driver_hart_last`. -/
theorem test_driver_hart_last_run (N : Nat) (test : test_t) (env : Env) (h : Hart) :
    Run (driver_may N (N - 1)) env h (test_driver_hart_last N test env h).2 := by
  have r : Run (driver_may N (N - 1)) env h
      (WfiMulticore.forLoop 0 NUM_WFI
        (fun _ h => wait 500 env (WfiMulticore.forLoop 0 (N - 1) set_software_interrupt h))
        (((h.exec (.call_test_driver_hart_last test)).exec (.store_harts_go false)).suspend
          (.wait 500) env)) := by
    refine Run.trans (Run.suspend (.wait 500) (Run.exec (.store_harts_go false)
      (Run.exec1 (.call_test_driver_hart_last test) ?_) ?_) rfl) ?_
    · simp [driver_may]
    · simp [driver_may]
    · apply Run.forLoop
      intro _ _ _ h1
      refine Run.suspend (.wait 500) ?_ rfl
      apply Run.forLoop
      intro j hj1 hj2 h2
      exact Run.exec1 (.set_software_interrupt j) (by simp only [driver_may]; omega)
  unfold test_driver_hart_last
  by_cases ht : test = .TEST_MIE_DISABLED
  · simp only [ht, if_true]
    exact ht ▸ r
  · simp only [ht, if_false]
    exact r

/-- A check loop returns the error it started with or the error of the check. -/
theorem check_loop_cases (fails : Nat → Bool) (err : error_t) (j n : Nat) (e : error_t) :
    check_loop fails err j n e = e ∨ check_loop fails err j n e = err := by
  induction n generalizing j with
  | zero => exact Or.inl rfl
  | succ n ih =>
    unfold check_loop
    split
    · exact Or.inr rfl
    · exact ih (j + 1)

/-- The verdict of a check loop started with `ERR_NONE` is a valid record. -/
theorem check_loop_record (fails : Nat → Bool) (err : error_t) (j n : Nat) (test : test_t)
    (herr : record_ok test err.toInt) :
    record_ok test (check_loop fails err j n .ERR_NONE).toInt := by
  rcases check_loop_cases fails err j n .ERR_NONE with c | c <;> rw [c]
  · exact Or.inl rfl
  · exact herr

/-- The verdict of a driver is `ERR_NONE` or the code of the test it ran. -/
theorem driver_verdict_ok (N : Nat) (test : test_t) (env : Env) (h : Hart) :
    record_ok test (test_driver_hart_0 N test env h).1.toInt ∧
    record_ok test (test_driver_hart_last N test env h).1.toInt := by
  cases test
  · simp only [test_driver_hart_0, test_driver_hart_last, if_true]
    exact ⟨check_loop_record _ _ _ _ _ (Or.inr rfl), check_loop_record _ _ _ _ _ (Or.inr rfl)⟩
  · simp only [test_driver_hart_0, test_driver_hart_last,
      if_neg (show ¬ test_t.TEST_MIE_ENABLED = test_t.TEST_MIE_DISABLED by decide)]
    exact ⟨check_loop_record _ _ _ _ _ (Or.inr rfl), check_loop_record _ _ _ _ _ (Or.inr rfl)⟩

/-- Footprint of the first sub-test. -/
theorem subtest_1_run (N hartid : Nat) (test : test_t) (env : Env) (fuel : Nat) (h : Hart) :
    Run (test_wfi_may N hartid test) env h (subtest_1 N hartid test env fuel h).2.hart := by
  unfold subtest_1
  by_cases h0 : hartid = 0
  · subst h0
    simp only [if_true, Outcome.hart]
    refine Run.exec _ ((test_driver_hart_0_run N test env h).mono ?_) ?_
    · intro e m hd
      exact Or.inr (Or.inr (Or.inl ⟨Or.inl rfl, hd⟩))
    · exact Or.inr (Or.inr (Or.inr ⟨rfl, (driver_verdict_ok N test env h).1, Or.inl rfl⟩))
  · simp only [h0, if_false]
    exact (test_taker_run hartid test env fuel h).mono fun e m ht => Or.inl ht

/-- Footprint of the second sub-test. -/
theorem subtest_2_run (N hartid : Nat) (test : test_t) (env : Env) (fuel : Nat)
    (error : error_t) (h : Hart) :
    Run (test_wfi_may N hartid test) env h (subtest_2 N hartid test env fuel error h).hart := by
  unfold subtest_2
  by_cases he : error = .ERR_NONE
  · simp only [he, if_true]
    by_cases hl : (hartid : Int) = (N : Int) - 1
    · have hl2 : hartid = N - 1 := by omega
      simp only [hl, if_true, Outcome.hart]
      refine Run.exec _ ((test_driver_hart_last_run N test env h).mono ?_) ?_
      · intro e m hd
        exact Or.inr (Or.inr (Or.inl ⟨Or.inr hl2, hl2 ▸ hd⟩))
      · exact Or.inr (Or.inr (Or.inr ⟨rfl, (driver_verdict_ok N test env h).2, Or.inr hl2⟩))
    · simp only [hl, if_false]
      exact (test_taker_run hartid test env fuel h).mono fun e m ht => Or.inl ht
  · simp only [he, if_false]
    exact Run.refl h

/-- Footprint of `test_wfi` up to its barrier. -/
theorem test_wfi_to_barrier_run (N hartid : Nat) (test : test_t) (env : Env) (fuel : Nat)
    (h : Hart) :
    Run (test_wfi_may N hartid test) env h (test_wfi_to_barrier N hartid test env fuel h).2.hart := by
  unfold test_wfi_to_barrier
  have r0 : Run (test_wfi_may N hartid test) env h
      (if test = .TEST_MIE_DISABLED then interrupt_global_disable hartid h
        else interrupt_global_enable hartid h) := by
    split
    · exact Run.exec1 _ (Or.inr (Or.inr (Or.inr rfl)))
    · exact Run.exec1 _ (Or.inr (Or.inr (Or.inr rfl)))
  refine Run.andThen (r0.trans (subtest_1_run N hartid test env fuel _)) ?_
  intro h1
  exact (synchronize_harts_run N hartid env fuel h1).mono fun e m hs => Or.inr (Or.inl hs)

/-- Footprint of `test_wfi`. -/
theorem test_wfi_run (N hartid : Nat) (test : test_t) (env : Env) (fuel : Nat) (h : Hart) :
    Run (test_wfi_may N hartid test) env h (test_wfi N hartid test env fuel h).hart := by
  unfold test_wfi
  exact Run.andThen (test_wfi_to_barrier_run N hartid test env fuel h)
    (subtest_2_run N hartid test env fuel _)

/-- Footprint of `test_init`. -/
theorem test_init_run (N hartid : Nat) (env : Env) (h : Hart) :
    Run (main_may N hartid) env h (test_init hartid h) := by
  unfold test_init
  exact Run.exec _ (Run.exec _ (Run.exec _ (Run.exec1 _ (Or.inr (Or.inr rfl)))
    (Or.inr (Or.inr rfl))) (Or.inr (Or.inr rfl))) (Or.inr (Or.inr rfl))

/-- Footprint of the parking loop. -/
theorem park_run (N hartid : Nat) (env : Env) (fuel : Nat) (h : Hart) :
    Run (main_may N hartid) env h (park hartid env fuel h).hart := by
  induction fuel generalizing h with
  | zero =>
    unfold park
    split <;> exact Run.refl h
  | succ fuel ih =>
    unfold park
    split
    · exact Run.trans (Run.suspend1 .wfi rfl) (ih _)
    · exact Run.refl h

/-- Footprint of `main`. -/
theorem main_body_run (N hartid : Nat) (env : Env) (fuel : Nat) (h : Hart) :
    Run (main_may N hartid) env h (main_body N hartid env fuel h).hart := by
  have hs : ∀ h1, Run (main_may N hartid) env h1 (synchronize_harts N hartid env fuel h1).hart :=
    fun h1 => (synchronize_harts_run N hartid env fuel h1).mono
      fun e m hm => Or.inl (Or.inr (Or.inl hm))
  unfold main_body
  refine Run.andThen (Run.andThen (Run.andThen (Run.andThen (Run.andThen
    ((test_init_run N hartid env h).trans (hs _)) ?_) hs) ?_) hs) (park_run N hartid env fuel)
  · exact fun h1 => (test_wfi_run N hartid _ env fuel h1).mono fun e m hm => Or.inl hm
  · exact fun h1 => (test_wfi_run N hartid _ env fuel h1).mono fun e m hm => Or.inr (Or.inl hm)

/-! ## The verdict of a giver (C1, C2) -/

/-- A check loop keeps the error it started with exactly when no index in its range
fails the check. -/
theorem check_loop_eq_self_iff (fails : Nat → Bool) (err : error_t) (j n : Nat) (e : error_t)
    (hne : err ≠ e) :
    check_loop fails err j n e = e ↔ ∀ k, j ≤ k → k < j + n → fails k = false := by
  induction n generalizing j with
  | zero =>
    simp only [check_loop, true_iff]
    intro k h1 h2
    omega
  | succ n ih =>
    unfold check_loop
    by_cases hf : fails j = true
    · simp only [hf, if_true]
      constructor
      · intro h
        exact absurd h hne
      · intro h
        have := h j (le_refl _) (by omega)
        rw [hf] at this
        cases this
    · have hf2 : fails j = false := by simpa using hf
      simp only [hf2, Bool.false_eq_true, if_false]
      rw [ih (j + 1)]
      constructor
      · intro h k h1 h2
        rcases Nat.eq_or_lt_of_le h1 with heq | hlt
        · subst heq
          exact hf2
        · exact h k hlt (by omega)
      · intro h k h1 h2
        exact h k (by omega) (by omega)

/-- C1, counterexample.  Four harts, disabled test, nothing interferes; at the check
`wfi_count = [-,3,5,5]` and `msi_count = [-,0,0,0]`.  Every taker satisfies
`wfi_count[j] == NUM_WFI` or `msi_count[j] == 0`, yet `test_driver_hart_0` and
`test_driver_hart_last` both return `ERR_INTERRUPTS_DISABLED`: the code fails a taker with
`wfi_count[j] != NUM_WFI && msi_count[j] == 0`. -/
theorem giver_disabled_claim_fails :
    (∀ j, 1 ≤ j → j < 4 →
      (test_driver_hart_0 4 .TEST_MIE_DISABLED noenv (Hart.start mem_c1)).2.mem.wfi_count j = NUM_WFI ∨
      (test_driver_hart_0 4 .TEST_MIE_DISABLED noenv (Hart.start mem_c1)).2.mem.msi_count j = 0) ∧
    (test_driver_hart_0 4 .TEST_MIE_DISABLED noenv (Hart.start mem_c1)).1 = .ERR_INTERRUPTS_DISABLED ∧
    (∀ j, j + 1 < 4 →
      (test_driver_hart_last 4 .TEST_MIE_DISABLED noenv (Hart.start mem_c1)).2.mem.wfi_count j = NUM_WFI ∨
      (test_driver_hart_last 4 .TEST_MIE_DISABLED noenv (Hart.start mem_c1)).2.mem.msi_count j = 0) ∧
    (test_driver_hart_last 4 .TEST_MIE_DISABLED noenv (Hart.start mem_c1)).1 = .ERR_INTERRUPTS_DISABLED := by
  refine ⟨?_, by decide, ?_, by decide⟩
  · intro j _ _
    exact Or.inr rfl
  · intro j _
    exact Or.inr rfl

/-- C1, amended.  In the disabled test each giver (`test_driver_hart_0` over the takers
`1 ≤ j < N`, `test_driver_hart_last` over the takers `j < N-1`) returns `ERR_NONE` or
`ERR_INTERRUPTS_DISABLED`; it returns `ERR_INTERRUPTS_DISABLED` whenever some taker has
`wfi_count[j] != NUM_WFI` and `msi_count[j] == 0`, and `ERR_NONE` whenever every taker has
`wfi_count[j] == NUM_WFI` and `msi_count[j] == 0`.  The counters are those in memory when the
giver checks them, whatever the other harts did before. -/
theorem giver_verdict_disabled (N : Nat) (env : Env) (h : Hart) :
    ((test_driver_hart_0 N .TEST_MIE_DISABLED env h).1 = .ERR_NONE ∨
      (test_driver_hart_0 N .TEST_MIE_DISABLED env h).1 = .ERR_INTERRUPTS_DISABLED) ∧
    ((∃ j, 1 ≤ j ∧ j < N ∧
        (test_driver_hart_0 N .TEST_MIE_DISABLED env h).2.mem.wfi_count j ≠ NUM_WFI ∧
        (test_driver_hart_0 N .TEST_MIE_DISABLED env h).2.mem.msi_count j = 0) →
      (test_driver_hart_0 N .TEST_MIE_DISABLED env h).1 = .ERR_INTERRUPTS_DISABLED) ∧
    ((∀ j, 1 ≤ j → j < N →
        (test_driver_hart_0 N .TEST_MIE_DISABLED env h).2.mem.wfi_count j = NUM_WFI ∧
        (test_driver_hart_0 N .TEST_MIE_DISABLED env h).2.mem.msi_count j = 0) →
      (test_driver_hart_0 N .TEST_MIE_DISABLED env h).1 = .ERR_NONE) ∧
    ((test_driver_hart_last N .TEST_MIE_DISABLED env h).1 = .ERR_NONE ∨
      (test_driver_hart_last N .TEST_MIE_DISABLED env h).1 = .ERR_INTERRUPTS_DISABLED) ∧
    ((∃ j, j + 1 < N ∧
        (test_driver_hart_last N .TEST_MIE_DISABLED env h).2.mem.wfi_count j ≠ NUM_WFI ∧
        (test_driver_hart_last N .TEST_MIE_DISABLED env h).2.mem.msi_count j = 0) →
      (test_driver_hart_last N .TEST_MIE_DISABLED env h).1 = .ERR_INTERRUPTS_DISABLED) ∧
    ((∀ j, j + 1 < N →
        (test_driver_hart_last N .TEST_MIE_DISABLED env h).2.mem.wfi_count j = NUM_WFI ∧
        (test_driver_hart_last N .TEST_MIE_DISABLED env h).2.mem.msi_count j = 0) →
      (test_driver_hart_last N .TEST_MIE_DISABLED env h).1 = .ERR_NONE) := by
  have key0 := check_loop_eq_self_iff
    (fun j => decide ((test_driver_hart_0 N .TEST_MIE_DISABLED env h).2.mem.wfi_count j ≠ NUM_WFI) &&
      decide ((test_driver_hart_0 N .TEST_MIE_DISABLED env h).2.mem.msi_count j = 0))
    .ERR_INTERRUPTS_DISABLED 1 (N - 1) .ERR_NONE (by decide)
  have key1 := check_loop_eq_self_iff
    (fun j => decide ((test_driver_hart_last N .TEST_MIE_DISABLED env h).2.mem.wfi_count j ≠ NUM_WFI) &&
      decide ((test_driver_hart_last N .TEST_MIE_DISABLED env h).2.mem.msi_count j = 0))
    .ERR_INTERRUPTS_DISABLED 0 (N - 1) .ERR_NONE (by decide)
  have c0 : (test_driver_hart_0 N .TEST_MIE_DISABLED env h).1 = .ERR_NONE ∨
      (test_driver_hart_0 N .TEST_MIE_DISABLED env h).1 = .ERR_INTERRUPTS_DISABLED := by
    simp only [test_driver_hart_0, if_true]
    exact check_loop_cases _ _ _ _ _
  have c1 : (test_driver_hart_last N .TEST_MIE_DISABLED env h).1 = .ERR_NONE ∨
      (test_driver_hart_last N .TEST_MIE_DISABLED env h).1 = .ERR_INTERRUPTS_DISABLED := by
    simp only [test_driver_hart_last, if_true]
    exact check_loop_cases _ _ _ _ _
  simp only [test_driver_hart_0, test_driver_hart_last, if_true] at key0 key1 c0 c1 ⊢
  refine ⟨c0, ?_, ?_, c1, ?_, ?_⟩
  · rintro ⟨j, h1, h2, h3, h4⟩
    rcases c0 with c | c
    · have := key0.mp c j h1 (by omega)
      simp [h3, h4] at this
    · exact c
  · intro hall
    apply key0.mpr
    intro k h1 h2
    simp [(hall k h1 (by omega)).1]
  · rintro ⟨j, h2, h3, h4⟩
    rcases c1 with c | c
    · have := key1.mp c j (Nat.zero_le _) (by omega)
      simp [h3, h4] at this
    · exact c
  · intro hall
    apply key1.mpr
    intro k h1 h2
    simp [(hall k (by omega)).1]

/-- C1, witness: `N = 4`, `wfi_count = [-,5,5,5]`, `msi_count = [-,0,0,0]` gives `ERR_NONE`. -/
theorem giver_verdict_disabled_witness :
    (test_driver_hart_0 4 .TEST_MIE_DISABLED noenv (Hart.start mem_w1)).1 = .ERR_NONE := by
  apply (giver_verdict_disabled 4 noenv (Hart.start mem_w1)).2.2.1
  intro j _ _
  exact ⟨rfl, rfl⟩

/-- C2.  In the enabled test each giver (`test_driver_hart_0` over the takers `1 ≤ j < N`,
`test_driver_hart_last` over the takers `j < N-1`) returns `ERR_NONE` if and only if every
taker has `wfi_count[j] == NUM_WFI` and `msi_count[j] == NUM_WFI`, and returns
`ERR_INTERRUPTS_ENABLED` otherwise.  The counters are those in memory when the giver checks
them, whatever the other harts did before. -/
theorem giver_verdict_enabled (N : Nat) (env : Env) (h : Hart) :
    ((test_driver_hart_0 N .TEST_MIE_ENABLED env h).1 = .ERR_NONE ↔
        ∀ j, 1 ≤ j → j < N →
          (test_driver_hart_0 N .TEST_MIE_ENABLED env h).2.mem.wfi_count j = NUM_WFI ∧
          (test_driver_hart_0 N .TEST_MIE_ENABLED env h).2.mem.msi_count j = NUM_WFI) ∧
    ((test_driver_hart_0 N .TEST_MIE_ENABLED env h).1 = .ERR_NONE ∨
      (test_driver_hart_0 N .TEST_MIE_ENABLED env h).1 = .ERR_INTERRUPTS_ENABLED) ∧
    ((test_driver_hart_last N .TEST_MIE_ENABLED env h).1 = .ERR_NONE ↔
        ∀ j, j + 1 < N →
          (test_driver_hart_last N .TEST_MIE_ENABLED env h).2.mem.wfi_count j = NUM_WFI ∧
          (test_driver_hart_last N .TEST_MIE_ENABLED env h).2.mem.msi_count j = NUM_WFI) ∧
    ((test_driver_hart_last N .TEST_MIE_ENABLED env h).1 = .ERR_NONE ∨
      (test_driver_hart_last N .TEST_MIE_ENABLED env h).1 = .ERR_INTERRUPTS_ENABLED) := by
  refine ⟨?_, ?_, ?_, ?_⟩
  · simp only [test_driver_hart_0, if_neg (show ¬ test_t.TEST_MIE_ENABLED = test_t.TEST_MIE_DISABLED by decide)]
    rw [check_loop_eq_self_iff _ _ _ _ _ (by decide)]
    constructor
    · intro hk j h1 h2
      have := hk j h1 (by omega)
      simpa using this
    · intro hk j h1 h2
      have := hk j h1 (by omega)
      simpa using this
  · simp only [test_driver_hart_0, if_neg (show ¬ test_t.TEST_MIE_ENABLED = test_t.TEST_MIE_DISABLED by decide)]
    exact check_loop_cases _ _ _ _ _
  · simp only [test_driver_hart_last, if_neg (show ¬ test_t.TEST_MIE_ENABLED = test_t.TEST_MIE_DISABLED by decide)]
    rw [check_loop_eq_self_iff _ _ _ _ _ (by decide)]
    constructor
    · intro hk j h2
      have := hk j (Nat.zero_le _) (by omega)
      simpa using this
    · intro hk j h1 h2
      have := hk j (by omega)
      simpa using this
  · simp only [test_driver_hart_last, if_neg (show ¬ test_t.TEST_MIE_ENABLED = test_t.TEST_MIE_DISABLED by decide)]
    exact check_loop_cases _ _ _ _ _

/-! ## Who writes `harts_go` (C9) -/

/-- An event other than a store to `harts_go` adds nothing to the stores of the log. -/
theorem stores_go_cons_of_ne (e : Event) (m : Shared) (l : List (Event × Shared))
    (hne : ∀ v, e ≠ .store_harts_go v) : stores_go ((e, m) :: l) = stores_go l := by
  cases e <;> first | rfl | exact absurd rfl (hne _)

/-- A suspension adds nothing to the stores of the log. -/
theorem stores_go_cons_suspends (e : Event) (m : Shared) (l : List (Event × Shared))
    (hs : e.suspends = true) : stores_go ((e, m) :: l) = stores_go l := by
  apply stores_go_cons_of_ne
  intro v hv
  subst hv
  cases hs

/-- An event other than a store to `harts_go` leaves the flag as it is. -/
theorem apply_harts_go_of_ne (e : Event) (m : Shared) (hne : ∀ v, e ≠ .store_harts_go v) :
    (e.apply m).harts_go = m.harts_go := by
  cases e <;> first | rfl | exact absurd rfl (hne _)

/-- A footprint without stores to `harts_go` leaves the stores of the log as they were,
and the flag too when the environment does not touch it. -/
theorem Run.no_go_store {A : Event → Shared → Prop} {env : Env} {h h' : Hart}
    (hA : ∀ v m, ¬ A (.store_harts_go v) m) (r : Run A env h h') :
    stores_go h'.log = stores_go h.log ∧
    ((∀ k m, (env k m).harts_go = m.harts_go) → h'.mem.harts_go = h.mem.harts_go) := by
  induction r with
  | refl => exact ⟨rfl, fun _ => rfl⟩
  | @exec h1 e _ hAe ih =>
    have hne : ∀ v, e ≠ .store_harts_go v := by
      intro v hv
      subst hv
      exact hA _ _ hAe
    refine ⟨?_, fun henv => ?_⟩
    · simp only [Hart.exec]
      rw [stores_go_cons_of_ne _ _ _ hne]
      exact ih.1
    · simp only [Hart.exec]
      rw [apply_harts_go_of_ne _ _ hne]
      exact ih.2 henv
  | @suspend h1 e _ hs ih =>
    refine ⟨?_, fun henv => ?_⟩
    · simp only [Hart.suspend]
      rw [stores_go_cons_suspends _ _ _ hs]
      exact ih.1
    · simp only [Hart.suspend]
      rw [henv]
      exact ih.2 henv

/-- On a hart other than 0 `synchronize_harts` does not store to `harts_go`. -/
theorem sync_may_no_go (N hartid : Nat) (hne : hartid ≠ 0) (v : Bool) (m : Shared) :
    ¬ sync_may N hartid (.store_harts_go v) m := by
  simp only [sync_may]
  intro hh
  exact hne hh.2.1

/-- The taker does not store to `harts_go`. -/
theorem taker_may_no_go (hartid : Nat) (test : test_t) (v : Bool) (m : Shared) :
    ¬ taker_may hartid test (.store_harts_go v) m := by
  simp [taker_may]

/-- The raising loops of a driver store nothing to `harts_go`. -/
theorem raise_loops_no_go (env : Env) (lo hi : Nat) (h : Hart) :
    stores_go (WfiMulticore.forLoop 0 NUM_WFI
      (fun _ h => wait 500 env (WfiMulticore.forLoop lo hi set_software_interrupt h)) h).log
      = stores_go h.log ∧
    ((∀ k m, (env k m).harts_go = m.harts_go) →
      (WfiMulticore.forLoop 0 NUM_WFI
        (fun _ h => wait 500 env (WfiMulticore.forLoop lo hi set_software_interrupt h)) h).mem.harts_go
        = h.mem.harts_go) := by
  have r : Run (fun e _ => ∃ j, e = .set_software_interrupt j) env h
      (WfiMulticore.forLoop 0 NUM_WFI
        (fun _ h => wait 500 env (WfiMulticore.forLoop lo hi set_software_interrupt h)) h) := by
    apply Run.forLoop
    intro _ _ _ h1
    refine Run.suspend (.wait 500) ?_ rfl
    apply Run.forLoop
    intro j _ _ h2
    exact Run.exec1 (.set_software_interrupt j) ⟨j, rfl⟩
  exact r.no_go_store (by rintro v m ⟨j, hj⟩; cases hj)

/-- The one store of `test_driver_hart_last` to `harts_go` is `FALSE`. -/
theorem test_driver_hart_last_go (N : Nat) (test : test_t) (env : Env) (h : Hart) :
    stores_go (test_driver_hart_last N test env h).2.log = false :: stores_go h.log ∧
    ((∀ k m, (env k m).harts_go = m.harts_go) →
      (test_driver_hart_last N test env h).2.mem.harts_go = false) := by
  have key := raise_loops_no_go env 0 (N - 1)
    (((h.exec (.call_test_driver_hart_last test)).exec (.store_harts_go false)).suspend
      (.wait 500) env)
  unfold test_driver_hart_last
  by_cases ht : test = .TEST_MIE_DISABLED
  · simp only [ht, if_true]
    subst ht
    simp only [wait] at key ⊢
    refine ⟨key.1.trans ?_, fun henv => (key.2 henv).trans ?_⟩
    · simp [Hart.suspend, Hart.exec, stores_go]
    · simp [Hart.suspend, Hart.exec, Event.apply, henv]
  · simp only [ht, if_false]
    simp only [wait] at key ⊢
    refine ⟨key.1.trans ?_, fun henv => (key.2 henv).trans ?_⟩
    · simp [Hart.suspend, Hart.exec, stores_go]
    · simp [Hart.suspend, Hart.exec, Event.apply, henv]

/-- Up to its barrier `test_wfi` on a hart other than 0 configures the interrupts, takes
the test and synchronises. -/
theorem test_wfi_to_barrier_taker_run (N hartid : Nat) (hne : hartid ≠ 0) (test : test_t)
    (env : Env) (fuel : Nat) (h : Hart) :
    Run (fun e m => taker_may hartid test e m ∨ sync_may N hartid e m ∨
        e = .interrupt_global_enable hartid ∨ e = .interrupt_global_disable hartid) env h
      (test_wfi_to_barrier N hartid test env fuel h).2.hart := by
  unfold test_wfi_to_barrier subtest_1
  simp only [hne, if_false]
  refine Run.andThen (Run.trans ?_ ((test_taker_run hartid test env fuel _).mono
    fun e m hm => Or.inl hm)) ?_
  · split
    · exact Run.exec1 (.interrupt_global_disable hartid) (Or.inr (Or.inr (Or.inr rfl)))
    · exact Run.exec1 (.interrupt_global_enable hartid) (Or.inr (Or.inr (Or.inl rfl)))
  · intro h1
    exact (synchronize_harts_run N hartid env fuel h1).mono fun e m hm => Or.inr (Or.inl hm)

/-- Up to its barrier `test_wfi` on a hart other than 0 does not store to `harts_go`. -/
theorem test_wfi_to_barrier_taker_go (N hartid : Nat) (hne : hartid ≠ 0) (test : test_t)
    (env : Env) (fuel : Nat) (h : Hart) :
    stores_go (test_wfi_to_barrier N hartid test env fuel h).2.hart.log = stores_go h.log ∧
    ((∀ k m, (env k m).harts_go = m.harts_go) →
      (test_wfi_to_barrier N hartid test env fuel h).2.hart.mem.harts_go = h.mem.harts_go) := by
  apply (test_wfi_to_barrier_taker_run N hartid hne test env fuel h).no_go_store
  rintro v m (ht | hs | he | he)
  · exact taker_may_no_go _ _ _ _ ht
  · exact sync_may_no_go _ _ hne _ _ hs
  · cases he
  · cases he

/-- On a hart other than 0 the local variable `error` of `test_wfi` is still `ERR_NONE`
after the first sub-test. -/
theorem test_wfi_to_barrier_error (N hartid : Nat) (hne : hartid ≠ 0) (test : test_t)
    (env : Env) (fuel : Nat) (h : Hart) :
    (test_wfi_to_barrier N hartid test env fuel h).1 = .ERR_NONE := by
  simp [test_wfi_to_barrier, subtest_1, hne]

/-- C9, counterexample.  Two harts; hart 1 is not hart 0.  Run on a memory with
`harts_go == TRUE`, `test_driver_hart_last` leaves `harts_go == FALSE` and its log holds the
store; and `test_wfi` on hart 1, released from its barrier, performs that store as well. -/
theorem hart_last_clears_harts_go :
    (1 : Nat) ≠ 0 ∧ mem_go.harts_go = true ∧
    (test_driver_hart_last 2 .TEST_MIE_DISABLED noenv (Hart.start mem_go)).2.mem.harts_go = false ∧
    stores_go (test_driver_hart_last 2 .TEST_MIE_DISABLED noenv (Hart.start mem_go)).2.log = [false] ∧
    (test_wfi 2 1 .TEST_MIE_DISABLED (fun _ m => { m with harts_go := true }) 5
      (Hart.start Shared.zero)).returned = true ∧
    stores_go (test_wfi 2 1 .TEST_MIE_DISABLED (fun _ m => { m with harts_go := true }) 5
      (Hart.start Shared.zero)).hart.log = [false] := by
  decide

/-- C9, amended.  On a hart other than 0, `synchronize_harts` and `test_taker` never store
to `harts_go`; `test_driver_hart_last` stores to it exactly once, the value `FALSE`; and
`test_wfi` stores to it exactly when the hart is hart `N-1` and got past the barrier, then
once and `FALSE`.  So a hart other than 0 never sets `harts_go` to `TRUE`.  When the
environment leaves `harts_go` alone, the flag in memory follows: unchanged by
`synchronize_harts` and `test_taker`, `FALSE` after `test_driver_hart_last`. -/
theorem harts_go_stores_of_other_harts (N hartid : Nat) (hne : hartid ≠ 0) (test : test_t)
    (env : Env) (fuel : Nat) (h : Hart) :
    stores_go (synchronize_harts N hartid env fuel h).hart.log = stores_go h.log ∧
    stores_go (test_taker hartid test env fuel h).hart.log = stores_go h.log ∧
    stores_go (test_driver_hart_last N test env h).2.log = false :: stores_go h.log ∧
    stores_go (test_wfi N hartid test env fuel h).hart.log =
      (if (hartid : Int) = (N : Int) - 1 ∧
          (test_wfi_to_barrier N hartid test env fuel h).2.returned = true
        then [false] else []) ++ stores_go h.log ∧
    ((∀ k m, (env k m).harts_go = m.harts_go) →
      (synchronize_harts N hartid env fuel h).hart.mem.harts_go = h.mem.harts_go ∧
      (test_taker hartid test env fuel h).hart.mem.harts_go = h.mem.harts_go ∧
      (test_driver_hart_last N test env h).2.mem.harts_go = false ∧
      (test_wfi N hartid test env fuel h).hart.mem.harts_go =
        (if (hartid : Int) = (N : Int) - 1 ∧
            (test_wfi_to_barrier N hartid test env fuel h).2.returned = true
          then false else h.mem.harts_go)) := by
  have hs := (synchronize_harts_run N hartid env fuel h).no_go_store (sync_may_no_go N hartid hne)
  have ht := (test_taker_run hartid test env fuel h).no_go_store (taker_may_no_go hartid test)
  have hd := test_driver_hart_last_go N test env h
  have hb := test_wfi_to_barrier_taker_go N hartid hne test env fuel h
  have he := test_wfi_to_barrier_error N hartid hne test env fuel h
  have hw : stores_go (test_wfi N hartid test env fuel h).hart.log =
      (if (hartid : Int) = (N : Int) - 1 ∧
          (test_wfi_to_barrier N hartid test env fuel h).2.returned = true
        then [false] else []) ++ stores_go h.log ∧
      ((∀ k m, (env k m).harts_go = m.harts_go) →
        (test_wfi N hartid test env fuel h).hart.mem.harts_go =
        (if (hartid : Int) = (N : Int) - 1 ∧
            (test_wfi_to_barrier N hartid test env fuel h).2.returned = true
          then false else h.mem.harts_go)) := by
    unfold test_wfi
    simp only [he]
    cases hr : (test_wfi_to_barrier N hartid test env fuel h).2 with
    | blocked h1 =>
      rw [hr] at hb
      simp only [Outcome.andThen, Outcome.hart, Outcome.returned, Bool.false_eq_true, and_false,
        if_false, List.nil_append]
      exact hb
    | done h1 =>
      rw [hr] at hb
      simp only [Outcome.hart] at hb
      simp only [Outcome.andThen, Outcome.returned, and_true, subtest_2, if_true]
      by_cases hl : (hartid : Int) = (N : Int) - 1
      · simp only [hl, if_true, Outcome.hart, Hart.exec, List.singleton_append]
        have hd1 := test_driver_hart_last_go N test env h1
        refine ⟨?_, fun henv => ?_⟩
        · rw [stores_go_cons_of_ne _ _ _ (by intro v hv; cases hv), hd1.1, hb.1]
        · rw [apply_harts_go_of_ne _ _ (by intro v hv; cases hv)]
          exact hd1.2 henv
      · simp only [hl, if_false, List.nil_append]
        have ht1 := (test_taker_run hartid test env fuel h1).no_go_store
          (taker_may_no_go hartid test)
        exact ⟨ht1.1.trans hb.1, fun henv => (ht1.2 henv).trans (hb.2 henv)⟩
  exact ⟨hs.1, ht.1, hd.1, hw.1, fun henv => ⟨hs.2 henv, ht.2 henv, hd.2 henv, hw.2 henv⟩⟩

/-- C9, witness: hart 1 of two, on a memory with `harts_go == TRUE`. -/
theorem harts_go_stores_of_other_harts_witness :
    stores_go (synchronize_harts 2 1 noenv 3 (Hart.start mem_go)).hart.log = [] ∧
    stores_go (test_taker 1 .TEST_MIE_ENABLED noenv 5 (Hart.start mem_go)).hart.log = [] := by
  have w := harts_go_stores_of_other_harts 2 1 (by decide) .TEST_MIE_ENABLED noenv 3
    (Hart.start mem_go)
  have w2 := harts_go_stores_of_other_harts 2 1 (by decide) .TEST_MIE_ENABLED noenv 5
    (Hart.start mem_go)
  exact ⟨w.1, w2.2.1⟩

/-! ## Counting check-ins (C10) -/

/-- An `int` in range is not changed by wrap-around. -/
theorem wrap32_id (x : Int) (h1 : -2147483648 ≤ x) (h2 : x < 2147483648) : wrap32 x = x := by
  unfold wrap32
  omega

/-- The counting loop adds the number of set flags to the count it started with. -/
theorem count_foldl (flag : Nat → Bool) (n lo : Nat) (c : Nat) (hb : c + n < 2147483648) :
    (List.range' lo n).foldl
      (fun (count : Int) i => if flag i = true then wrap32 (count + 1) else count) (c : Int)
      = ((c + (List.range' lo n).countP flag : Nat) : Int) := by
  induction n generalizing lo c with
  | zero => simp
  | succ n ih =>
    rw [List.range'_succ, List.foldl_cons, List.countP_cons]
    by_cases hf : flag lo = true
    · simp only [hf, if_true]
      rw [wrap32_id _ (by omega) (by omega)]
      have := ih (lo + 1) (c + 1) (by omega)
      rw [show ((c : Int) + 1) = ((c + 1 : Nat) : Int) by push_cast; ring, this]
      congr 1
      omega
    · have hf2 : flag lo = false := by simpa using hf
      simp only [hf2, Bool.false_eq_true, if_false]
      rw [ih (lo + 1) c (by omega)]
      simp

/-- The count is the number of set flags. -/
theorem hart_checkin_count_eq (N : Nat) (hN : N < 2147483648) (m : Shared) :
    hart_checkin_count N m = (((List.range N).countP m.hart_checkin : Nat) : Int) := by
  unfold hart_checkin_count WfiMulticore.forLoop
  have := count_foldl m.hart_checkin N 0 0 (by omega)
  simp only [Nat.cast_zero, Nat.sub_zero, Nat.zero_add] at this ⊢
  rw [this, List.range_eq_range']

/-- The count is `N` exactly when every flag is set. -/
theorem hart_checkin_count_full (N : Nat) (hN : N < 2147483648) (m : Shared) :
    hart_checkin_count N m = (N : Int) ↔ ∀ i, i < N → m.hart_checkin i = true := by
  rw [hart_checkin_count_eq N hN]
  have hlen : (List.range N).length = N := List.length_range N
  constructor
  · intro hc i hi
    have hc2 : (List.range N).countP m.hart_checkin = (List.range N).length := by
      rw [hlen]; exact_mod_cast hc
    exact (List.countP_eq_length.mp hc2) i (List.mem_range.mpr hi)
  · intro hall
    have hc2 : (List.range N).countP m.hart_checkin = (List.range N).length :=
      List.countP_eq_length.mpr fun i hi => hall i (List.mem_range.mp hi)
    rw [hc2, hlen]

/-- C10.  For `N` harts (`N` fits an `int`), `hart_checkin_count` returns exactly the number
of indices `i < N` with `hart_checkin[i] == TRUE`, so `0 ≤ result ≤ N`, and `result == N` if
and only if every flag is `TRUE`; and whenever hart 0 stores `TRUE` to `harts_go` in
`synchronize_harts`, all `N` check-in flags are `TRUE` in the memory of that store.  The
count and the store that follows it act on one memory; the other harts act between the
iterations of the loop. -/
theorem checkin_count_and_release (N : Nat) (hN : N < 2147483648) (m : Shared) (env : Env)
    (fuel : Nat) (h : Hart) :
    hart_checkin_count N m = (((List.range N).filter fun i => m.hart_checkin i).length : Int) ∧
    0 ≤ hart_checkin_count N m ∧ hart_checkin_count N m ≤ (N : Int) ∧
    (hart_checkin_count N m = (N : Int) ↔ ∀ i, i < N → m.hart_checkin i = true) ∧
    ∃ new, (synchronize_harts N 0 env fuel h).hart.log = new ++ h.log ∧
      ∀ x ∈ new, x.1 = .store_harts_go true → ∀ i, i < N → x.2.hart_checkin i = true := by
  have hle : (List.range N).countP m.hart_checkin ≤ N := by
    have := List.countP_le_length (l := List.range N) m.hart_checkin
    simpa using this
  refine ⟨?_, ?_, ?_, hart_checkin_count_full N hN m, ?_⟩
  · rw [hart_checkin_count_eq N hN, List.countP_eq_length_filter]
  · rw [hart_checkin_count_eq N hN]
    exact Int.natCast_nonneg _
  · rw [hart_checkin_count_eq N hN]
    exact_mod_cast hle
  · obtain ⟨new, hl, hn⟩ := (synchronize_harts_run N 0 env fuel h).log_grows
    refine ⟨new, hl, ?_⟩
    intro x hx he
    rcases hn x hx with hA | hs
    · rw [he] at hA
      simp only [sync_may] at hA
      exact (hart_checkin_count_full N hN x.2).mp hA.2.2
    · rw [he] at hs
      cases hs

/-- C10, witness: four harts of which hart 2 has not checked in count as 3; with all
checked in, hart 0 does store `TRUE`. -/
theorem checkin_count_and_release_witness :
    hart_checkin_count 4 { Shared.zero with hart_checkin := fun i => decide (i ≠ 2) } = 3 ∧
    (Event.store_harts_go true ∈
      events (synchronize_harts 4 0 env_all_in 3 (Hart.start Shared.zero)).hart.log) := by
  have w := checkin_count_and_release 4 (by decide)
    { Shared.zero with hart_checkin := fun i => decide (i ≠ 2) } env_all_in 3
    (Hart.start Shared.zero)
  exact ⟨w.1.trans (by decide), by decide⟩

/-! ## The taker (C6) -/

/-- One iteration of the taker, when nobody else writes `wfi_count[hartid]`: one
suspension, the counter goes from `c` to `c + 1` and stays within `0 .. NUM_WFI`. -/
theorem taker_iteration_spec (hartid : Nat) (test : test_t) (env : Env)
    (rely : ∀ k m, (env k m).wfi_count hartid = m.wfi_count hartid) (h : Hart) (c : Int)
    (hc : h.mem.wfi_count hartid = c) (h0 : 0 ≤ c) (h5 : c < (NUM_WFI : Int)) :
    ∃ new, (taker_iteration hartid test env h).log = new ++ h.log ∧ wfi_calls new = 1 ∧
      (taker_iteration hartid test env h).clock = h.clock + 1 ∧
      (∀ x ∈ new, 0 ≤ x.2.wfi_count hartid ∧ x.2.wfi_count hartid ≤ (NUM_WFI : Int)) ∧
      (taker_iteration hartid test env h).mem.wfi_count hartid = c + 1 := by
  have hw : (env h.clock h.mem).wfi_count hartid = c := by rw [rely, hc]
  have hv : wrap32 (c + 1) = c + 1 := by
    simp only [NUM_WFI] at h5
    exact wrap32_id _ (by omega) (by omega)
  simp only [NUM_WFI, Nat.cast_ofNat] at h5 ⊢
  unfold taker_iteration
  by_cases ht : test = .TEST_MIE_DISABLED
  · simp only [ht, if_true, wfi, Hart.suspend, Hart.exec, clear_software_interrupt, hw, hv]
    refine ⟨[_, _, _], rfl, by simp [wfi_calls, List.countP_cons], trivial, ?_, ?_⟩
    · intro x hx
      simp only [List.mem_cons, List.mem_singleton, List.not_mem_nil, or_false] at hx
      rcases hx with rfl | rfl | rfl
      · simp only [Event.apply, upd, if_true]; omega
      · simp only [Event.apply, upd, if_true]; omega
      · simp only [hw]; omega
    · simp [Event.apply, upd]
  · simp only [ht, if_false, wfi, Hart.suspend, Hart.exec, hw, hv]
    refine ⟨[_, _], rfl, by simp [wfi_calls, List.countP_cons], trivial, ?_, ?_⟩
    · intro x hx
      simp only [List.mem_cons, List.mem_singleton, List.not_mem_nil, or_false] at hx
      rcases hx with rfl | rfl
      · simp only [Event.apply, upd, if_true]; omega
      · simp only [hw]; omega
    · simp [Event.apply, upd]

/-- The loop of the taker with `k` iterations to go. -/
theorem test_taker_loop_spec (hartid : Nat) (test : test_t) (env : Env)
    (rely : ∀ k m, (env k m).wfi_count hartid = m.wfi_count hartid) :
    ∀ (k fuel : Nat) (h : Hart), k ≤ NUM_WFI →
      h.mem.wfi_count hartid = ((NUM_WFI - k : Nat) : Int) → k ≤ fuel →
      ∃ h' rest, test_taker_loop hartid test env fuel h = .done h' ∧
        h'.log = rest ++ h.log ∧ wfi_calls rest = k ∧ h'.clock = h.clock + k ∧
        (∀ x ∈ rest, 0 ≤ x.2.wfi_count hartid ∧ x.2.wfi_count hartid ≤ (NUM_WFI : Int)) ∧
        h'.mem.wfi_count hartid = (NUM_WFI : Int) := by
  intro k
  induction k with
  | zero =>
    intro fuel h _ hw _
    have hnot : ¬ h.mem.wfi_count hartid < (NUM_WFI : Int) := by
      rw [hw]; simp
    refine ⟨h, [], ?_, rfl, rfl, rfl, by simp, by rw [hw]; simp⟩
    cases fuel <;> simp [test_taker_loop, hnot]
  | succ k ih =>
    intro fuel h hk hw hf
    have hlt : h.mem.wfi_count hartid < (NUM_WFI : Int) := by
      rw [hw]; simp only [NUM_WFI] at hk ⊢; omega
    obtain ⟨fuel, rfl⟩ : ∃ f, fuel = f + 1 := ⟨fuel - 1, by omega⟩
    obtain ⟨new, hl1, hc1, hcl1, hb1, hm1⟩ := taker_iteration_spec hartid test env rely h _ hw
      (Int.natCast_nonneg _) (hw ▸ hlt)
    obtain ⟨h', rest, hd, hl, hc, hcl, hb, hfin⟩ := ih fuel (taker_iteration hartid test env h)
      (by omega) (by rw [hm1]; simp only [NUM_WFI] at hk ⊢; omega) (by omega)
    unfold test_taker_loop
    simp only [hlt, if_true]
    refine ⟨h', rest ++ new, hd, ?_, ?_, ?_, ?_, hfin⟩
    · rw [hl, hl1, List.append_assoc]
    · simp only [wfi_calls] at hc hc1 ⊢
      rw [List.countP_append, hc, hc1]
    · rw [hcl, hcl1]; omega
    · intro x hx
      rcases List.mem_append.mp hx with hx | hx
      · exact hb x hx
      · exact hb1 x hx

/-- C6.  For every `hartid`, either test and any initial counters, when every `wfi`
resumes (`NUM_WFI ≤ fuel`) and no other hart writes `wfi_count[hartid]`, `test_taker`
returns; its first two stores reset `msi_count[hartid]` and `wfi_count[hartid]` to 0; it
then suspends exactly `NUM_WFI` times; `wfi_count[hartid]` stays within `0 .. NUM_WFI` in
every state after the reset; and at the return `wfi_count[hartid] == NUM_WFI`.  What the
environment, the interrupt handler included, does to `msi_count[hartid]` is arbitrary. -/
theorem test_taker_spec (hartid : Nat) (test : test_t) (env : Env) (fuel : Nat) (h : Hart)
    (rely : ∀ k m, (env k m).wfi_count hartid = m.wfi_count hartid)
    (hfuel : NUM_WFI ≤ fuel) :
    ∃ h' rest m3 m2 m1,
      test_taker hartid test env fuel h = .done h' ∧
      h'.log = rest ++ (.store_wfi_count hartid 0, m3) :: (.store_msi_count hartid 0, m2) ::
        (.call_test_taker hartid test, m1) :: h.log ∧
      m3.msi_count hartid = 0 ∧ m3.wfi_count hartid = 0 ∧
      wfi_calls rest = NUM_WFI ∧ h'.clock = h.clock + NUM_WFI ∧
      (∀ x ∈ rest, 0 ≤ x.2.wfi_count hartid ∧ x.2.wfi_count hartid ≤ (NUM_WFI : Int)) ∧
      h'.mem.wfi_count hartid = (NUM_WFI : Int) := by
  obtain ⟨h', rest, hd, hl, hc, hcl, hb, hfin⟩ := test_taker_loop_spec hartid test env rely
    NUM_WFI fuel
    (((h.exec (.call_test_taker hartid test)).exec (.store_msi_count hartid 0)).exec
      (.store_wfi_count hartid 0))
    (le_refl _) (by simp [Hart.exec, Event.apply, upd]) hfuel
  refine ⟨h', rest, _, _, _, hd, hl, ?_, ?_, hc, hcl, hb, hfin⟩
  · simp [Hart.exec, Event.apply, upd]
  · simp [Hart.exec, Event.apply, upd]

/-- C6, witness: hart 1, enabled test, counters 77 and -3 at entry, the handler runs
once per suspension; the taker returns with `wfi_count[1] = 5` and `msi_count[1] = 5`. -/
theorem test_taker_spec_witness :
    ∃ h', test_taker 1 .TEST_MIE_ENABLED (handler_env 1) 5
        (Hart.start { Shared.zero with wfi_count := fun _ => 77, msi_count := fun _ => -3 })
        = .done h' ∧
      h'.mem.wfi_count 1 = 5 ∧ h'.mem.msi_count 1 = 5 := by
  obtain ⟨h', _, _, _, _, hd, _, _, _, _, _, _, hfin⟩ := test_taker_spec 1 .TEST_MIE_ENABLED
    (handler_env 1) 5
    (Hart.start { Shared.zero with wfi_count := fun _ => 77, msi_count := fun _ => -3 })
    (fun _ _ => rfl) (le_refl _)
  refine ⟨h', hd, hfin, ?_⟩
  have : h' = (test_taker 1 .TEST_MIE_ENABLED (handler_env 1) 5
      (Hart.start { Shared.zero with wfi_count := fun _ => 77, msi_count := fun _ => -3 })).hart := by
    rw [hd]; rfl
  rw [this]
  decide

/-! ## Role rotation (C8) -/

/-- The interrupts raised by a loop over consecutive harts. -/
theorem raised_foldl (j : Nat) (n lo : Nat) (h : Hart) :
    raised j ((List.range' lo n).foldl (fun s i => set_software_interrupt i s) h).log
      = raised j h.log + (if lo ≤ j ∧ j < lo + n then 1 else 0) := by
  induction n generalizing lo h with
  | zero =>
    have : ¬ (lo ≤ j ∧ j < lo + 0) := by omega
    simp [this]
  | succ n ih =>
    rw [List.range'_succ, List.foldl_cons, ih]
    simp only [set_software_interrupt, Hart.exec, raised, List.countP_cons, decide_eq_true_eq,
      Event.set_software_interrupt.injEq]
    by_cases h1 : lo = j
    · subst h1
      have a : ¬ (lo + 1 ≤ lo ∧ lo < lo + 1 + n) := by omega
      have b : lo ≤ lo ∧ lo < lo + (n + 1) := by omega
      simp [a, b]
    · by_cases h2 : lo + 1 ≤ j ∧ j < lo + 1 + n
      · have b : lo ≤ j ∧ j < lo + (n + 1) := by omega
        simp [h1, h2, b]
      · have b : ¬ (lo ≤ j ∧ j < lo + (n + 1)) := by omega
        simp [h1, h2, b]

/-- The inner loop of a driver raises one interrupt for each hart in its range. -/
theorem raised_raise_loop (j lo hi : Nat) (h : Hart) :
    raised j (WfiMulticore.forLoop lo hi set_software_interrupt h).log
      = raised j h.log + (if lo ≤ j ∧ j < hi then 1 else 0) := by
  unfold WfiMulticore.forLoop
  rw [raised_foldl]
  by_cases h1 : lo ≤ j ∧ j < hi
  · have : lo ≤ j ∧ j < lo + (hi - lo) := by omega
    simp [h1, this]
  · have : ¬ (lo ≤ j ∧ j < lo + (hi - lo)) := by omega
    simp [h1, this]

/-- One round of a driver: the inner loop, then the delay. -/
theorem raised_round (j lo hi : Nat) (env : Env) (h : Hart) :
    raised j (wait 500 env (WfiMulticore.forLoop lo hi set_software_interrupt h)).log
      = raised j h.log + (if lo ≤ j ∧ j < hi then 1 else 0) := by
  rw [← raised_raise_loop]
  simp [wait, Hart.suspend, raised, List.countP_cons]

/-- The `NUM_WFI` rounds of a driver. -/
theorem raised_rounds (j lo hi : Nat) (env : Env) (h : Hart) :
    raised j (WfiMulticore.forLoop 0 NUM_WFI
      (fun _ h => wait 500 env (WfiMulticore.forLoop lo hi set_software_interrupt h)) h).log
      = raised j h.log + (if lo ≤ j ∧ j < hi then NUM_WFI else 0) := by
  have e : WfiMulticore.forLoop 0 NUM_WFI
      (fun _ h => wait 500 env (WfiMulticore.forLoop lo hi set_software_interrupt h)) h
      = wait 500 env (WfiMulticore.forLoop lo hi set_software_interrupt
        (wait 500 env (WfiMulticore.forLoop lo hi set_software_interrupt
        (wait 500 env (WfiMulticore.forLoop lo hi set_software_interrupt
        (wait 500 env (WfiMulticore.forLoop lo hi set_software_interrupt
        (wait 500 env (WfiMulticore.forLoop lo hi set_software_interrupt h))))))))) := rfl
  rw [e]
  simp only [raised_round]
  by_cases h1 : lo ≤ j ∧ j < hi
  · simp [h1, NUM_WFI]
  · simp [h1]

/-- C8.  For `N ≥ 2`: `test_driver_hart_0` calls `set_software_interrupt(j)` exactly
`NUM_WFI` times for every hart `j < N` other than its giver 0 and never for any other `j`;
`test_driver_hart_last` calls it exactly `NUM_WFI` times for every hart `j < N` other than its
giver `N-1` and never for any other `j`; and every hart `j < N` is a taker of one of the two. -/
theorem role_rotation (N : Nat) (hN : 2 ≤ N) (test : test_t) (env : Env) (h : Hart) (j : Nat) :
    raised j (test_driver_hart_0 N test env h).2.log
      = raised j h.log + (if j < N ∧ j ≠ 0 then NUM_WFI else 0) ∧
    raised j (test_driver_hart_last N test env h).2.log
      = raised j h.log + (if j < N ∧ j ≠ N - 1 then NUM_WFI else 0) ∧
    (j < N → (j < N ∧ j ≠ 0) ∨ (j < N ∧ j ≠ N - 1)) := by
  refine ⟨?_, ?_, fun hj => ?_⟩
  · have key := raised_rounds j 1 N env
      (((h.exec (.call_test_driver_hart_0 test)).suspend (.wait 500) env).exec
        (.store_harts_go false))
    have hc : (j < N ∧ j ≠ 0) ↔ (1 ≤ j ∧ j < N) := by omega
    simp only [hc]
    unfold test_driver_hart_0
    by_cases ht : test = .TEST_MIE_DISABLED
    · subst ht
      simp only [if_true, wait] at key ⊢
      rw [key]
      simp [Hart.exec, Hart.suspend, raised, List.countP_cons]
    · simp only [ht, if_false, wait] at key ⊢
      rw [key]
      simp [Hart.exec, Hart.suspend, raised, List.countP_cons]
  · have key := raised_rounds j 0 (N - 1) env
      (((h.exec (.call_test_driver_hart_last test)).exec (.store_harts_go false)).suspend
        (.wait 500) env)
    have hc : (j < N ∧ j ≠ N - 1) ↔ (0 ≤ j ∧ j < N - 1) := by omega
    simp only [hc]
    unfold test_driver_hart_last
    by_cases ht : test = .TEST_MIE_DISABLED
    · subst ht
      simp only [if_true, wait] at key ⊢
      rw [key]
      simp [Hart.exec, Hart.suspend, raised, List.countP_cons]
    · simp only [ht, if_false, wait] at key ⊢
      rw [key]
      simp [Hart.exec, Hart.suspend, raised, List.countP_cons]
  · omega

/-- C8, witness: four harts; hart 0 is raised by hart 3 only, hart 3 by hart 0 only. -/
theorem role_rotation_witness :
    raised 0 (test_driver_hart_0 4 .TEST_MIE_ENABLED (fun _ m => m) (Hart.start Shared.zero)).2.log = 0 ∧
    raised 3 (test_driver_hart_0 4 .TEST_MIE_ENABLED (fun _ m => m) (Hart.start Shared.zero)).2.log = 5 ∧
    raised 0 (test_driver_hart_last 4 .TEST_MIE_ENABLED (fun _ m => m) (Hart.start Shared.zero)).2.log = 5 ∧
    raised 3 (test_driver_hart_last 4 .TEST_MIE_ENABLED (fun _ m => m) (Hart.start Shared.zero)).2.log = 0 := by
  have w0 := role_rotation 4 (by decide) .TEST_MIE_ENABLED (fun _ m => m) (Hart.start Shared.zero) 0
  have w3 := role_rotation 4 (by decide) .TEST_MIE_ENABLED (fun _ m => m) (Hart.start Shared.zero) 3
  exact ⟨w0.1, w3.1, w0.2.1, w3.2.1⟩

/-! ## The result of `main` (C3) -/

/-- A sequence that returned: both parts returned. -/
theorem Outcome.andThen_eq_done {o : Outcome} {k : Hart → Outcome} {h' : Hart}
    (e : o.andThen k = .done h') : ∃ h1, o = .done h1 ∧ k h1 = .done h' := by
  cases o with
  | done h1 => exact ⟨h1, rfl, e⟩
  | blocked h1 => cases e

/-- The two tests have different indices. -/
theorem test_t_toNat_inj (t t' : test_t) (e : t.toNat = t'.toNat) : t = t' := by
  cases t <;> cases t' <;> first | rfl | cases e

/-- An event other than a store to `global_error` leaves the records as they are. -/
theorem apply_global_error_of_ne (e : Event) (m : Shared)
    (hne : ∀ t v, e ≠ .store_global_error t v) :
    (e.apply m).global_error = m.global_error := by
  cases e <;> first | rfl | exact absurd rfl (hne _ _)

/-- Records stay valid along a footprint whose stores to `global_error` are valid, when
the environment keeps them valid. -/
theorem Run.records {A : Event → Shared → Prop} {env : Env} {h h' : Hart}
    (hA : ∀ t v m, A (.store_global_error t v) m → record_ok t v)
    (rely : ∀ k m t, record_ok t (m.global_error t.toNat) →
      record_ok t ((env k m).global_error t.toNat))
    (r : Run A env h h') (t : test_t) (h0 : record_ok t (h.mem.global_error t.toNat)) :
    record_ok t (h'.mem.global_error t.toNat) := by
  refine Run.invariant (fun m => record_ok t (m.global_error t.toNat))
    (fun k m hm => rely k m t hm) ?_ r h0
  intro e m hAe hm
  by_cases hs : ∃ t' v, e = .store_global_error t' v
  · obtain ⟨t', v, rfl⟩ := hs
    have hv := hA t' v _ hAe
    simp only [Event.apply, upd]
    by_cases ht : t.toNat = t'.toNat
    · have := test_t_toNat_inj _ _ ht
      subst this
      simpa using hv
    · simpa [ht] using hm
  · rw [apply_global_error_of_ne e m (fun t' v he => hs ⟨t', v, he⟩)]
    exact hm

/-- The stores of `test_wfi` to `global_error` go to the record of its test and are valid. -/
theorem test_wfi_may_store (N hartid : Nat) (test t : test_t) (v : Int) (m : Shared)
    (hm : test_wfi_may N hartid test (.store_global_error t v) m) : t = test ∧ record_ok t v := by
  rcases hm with hm | hm | hm | hm
  · simp [taker_may] at hm
  · simp [sync_may] at hm
  · simp [driver_may] at hm
  · exact ⟨hm.1, hm.1 ▸ hm.2.1⟩

/-- The stores of `main` to `global_error` are valid. -/
theorem main_may_store (N hartid : Nat) (t : test_t) (v : Int) (m : Shared)
    (hm : main_may N hartid (.store_global_error t v) m) : record_ok t v := by
  rcases hm with hm | hm | hm
  · exact (test_wfi_may_store _ _ _ _ _ _ hm).2
  · exact (test_wfi_may_store _ _ _ _ _ _ hm).2
  · exact absurd hm (by simp)

/-- On hart 0 `test_wfi` leaves a valid record of its test. -/
theorem test_wfi_records (N : Nat) (test : test_t) (env : Env) (fuel : Nat) (h : Hart)
    (rely : ∀ k m t, record_ok t (m.global_error t.toNat) →
      record_ok t ((env k m).global_error t.toNat)) :
    record_ok test ((test_wfi N 0 test env fuel h).hart.mem.global_error test.toNat) := by
  have e : ∃ g : Hart, record_ok test (g.mem.global_error test.toNat) ∧
      test_wfi N 0 test env fuel h =
        ((Outcome.done g).andThen (synchronize_harts N 0 env fuel)).andThen
          (subtest_2 N 0 test env fuel (test_wfi_to_barrier N 0 test env fuel h).1) := by
    refine ⟨(test_driver_hart_0 N test env
        (if test = .TEST_MIE_DISABLED then interrupt_global_disable 0 h
          else interrupt_global_enable 0 h)).2.exec
      (.store_global_error test (test_driver_hart_0 N test env
        (if test = .TEST_MIE_DISABLED then interrupt_global_disable 0 h
          else interrupt_global_enable 0 h)).1.toInt), ?_,
      by simp only [test_wfi, test_wfi_to_barrier, subtest_1, if_true]⟩
    simp only [Hart.exec, Event.apply, upd, if_true]
    exact (driver_verdict_ok N test env _).1
  obtain ⟨g, hg, e⟩ := e
  rw [e]
  have r : Run (test_wfi_may N 0 test) env g
      (((Outcome.done g).andThen (synchronize_harts N 0 env fuel)).andThen
        (subtest_2 N 0 test env fuel (test_wfi_to_barrier N 0 test env fuel h).1)).hart := by
    refine Run.andThen (Run.andThen (Run.refl g) ?_) (subtest_2_run N 0 test env fuel _)
    exact fun h1 => (synchronize_harts_run N 0 env fuel h1).mono fun e m hs => Or.inr (Or.inl hs)
  exact r.records (fun t v m hm => (test_wfi_may_store _ _ _ _ _ _ hm).2) rely test hg

/-- The sum of two valid records tells them apart. -/
theorem sum_of_records (a b : Int) (ha : record_ok .TEST_MIE_DISABLED a)
    (hb : record_ok .TEST_MIE_ENABLED b) :
    wrap32 (a + b) = a + b ∧
    (a + b = 0 ↔ a = error_t.ERR_NONE.toInt ∧ b = error_t.ERR_NONE.toInt) ∧
    (a + b = 1 ↔ a = error_t.ERR_INTERRUPTS_DISABLED.toInt ∧ b = error_t.ERR_NONE.toInt) ∧
    (a + b = 2 ↔ a = error_t.ERR_NONE.toInt ∧ b = error_t.ERR_INTERRUPTS_ENABLED.toInt) ∧
    (a + b = 3 ↔ a = error_t.ERR_INTERRUPTS_DISABLED.toInt ∧
      b = error_t.ERR_INTERRUPTS_ENABLED.toInt) := by
  simp only [record_ok, error_t.toInt] at ha hb ⊢
  rcases ha with rfl | rfl <;> rcases hb with rfl | rfl <;> simp [wrap32]

/-- C3.  When `main` returns on hart 0, the value returned is
`global_error[TEST_MIE_DISABLED] + global_error[TEST_MIE_ENABLED]`.  Every store of
`test_wfi` to `global_error`, on any hart, goes to the record of its test and is `ERR_NONE`
or the code of that test; so, the other harts keeping the records valid, at the return
each record is `ERR_NONE` or the code of its test, the result is 0 if and only if both
records are `ERR_NONE`, and the results 1, 2, 3 tell which records hold a failure. -/
theorem main_result (N : Nat) (env : Env) (fuel : Nat) (h : Hart) (r : Int) (h' : Hart)
    (rely : ∀ k m t, record_ok t (m.global_error t.toNat) →
      record_ok t ((env k m).global_error t.toNat))
    (hret : main N 0 env fuel h = some (r, h')) :
    r = h'.mem.global_error 0 + h'.mem.global_error 1 ∧
    record_ok .TEST_MIE_DISABLED (h'.mem.global_error 0) ∧
    record_ok .TEST_MIE_ENABLED (h'.mem.global_error 1) ∧
    (r = 0 ↔ h'.mem.global_error 0 = error_t.ERR_NONE.toInt ∧
      h'.mem.global_error 1 = error_t.ERR_NONE.toInt) ∧
    (r = 1 ↔ h'.mem.global_error 0 = error_t.ERR_INTERRUPTS_DISABLED.toInt ∧
      h'.mem.global_error 1 = error_t.ERR_NONE.toInt) ∧
    (r = 2 ↔ h'.mem.global_error 0 = error_t.ERR_NONE.toInt ∧
      h'.mem.global_error 1 = error_t.ERR_INTERRUPTS_ENABLED.toInt) ∧
    (r = 3 ↔ h'.mem.global_error 0 = error_t.ERR_INTERRUPTS_DISABLED.toInt ∧
      h'.mem.global_error 1 = error_t.ERR_INTERRUPTS_ENABLED.toInt) ∧
    (∀ hartid test env2 fuel2 g, ∃ new,
      (test_wfi N hartid test env2 fuel2 g).hart.log = new ++ g.log ∧
      ∀ x ∈ new, ∀ t v, x.1 = .store_global_error t v → t = test ∧ record_ok test v) := by
  -- the run of `main_body` that reached the `return`
  have hb : main_body N 0 env fuel h = .done h' ∧
      r = wrap32 (h'.mem.global_error 0 + h'.mem.global_error 1) := by
    unfold main at hret
    split at hret
    · rename_i g hg
      simp only [Option.some.injEq, Prod.mk.injEq] at hret
      exact ⟨hret.2 ▸ hg, hret.2 ▸ hret.1.symm⟩
    · cases hret
  obtain ⟨hb, hr⟩ := hb
  unfold main_body at hb
  obtain ⟨h6, hb, e6⟩ := Outcome.andThen_eq_done hb
  obtain ⟨h5, hb, e5⟩ := Outcome.andThen_eq_done hb
  obtain ⟨h4, hb, e4⟩ := Outcome.andThen_eq_done hb
  obtain ⟨h3, hb, e3⟩ := Outcome.andThen_eq_done hb
  obtain ⟨h2, _, e2⟩ := Outcome.andThen_eq_done hb
  have hs : ∀ h1, Run (main_may N 0) env h1 (synchronize_harts N 0 env fuel h1).hart :=
    fun h1 => (synchronize_harts_run N 0 env fuel h1).mono
      fun e m hm => Or.inl (Or.inr (Or.inl hm))
  have r34 : Run (main_may N 0) env h3 h4 := by
    have := hs h3; rw [e3] at this; exact this
  have r45 : Run (main_may N 0) env h4 h5 := by
    have := (test_wfi_run N 0 .TEST_MIE_ENABLED env fuel h4).mono
      (B := main_may N 0) fun e m hm => Or.inr (Or.inl hm)
    rw [e4] at this; exact this
  have r56 : Run (main_may N 0) env h5 h6 := by
    have := hs h5; rw [e5] at this; exact this
  have r6 : Run (main_may N 0) env h6 h' := by
    have := park_run N 0 env fuel h6; rw [e6] at this; exact this
  have ok3 : record_ok .TEST_MIE_DISABLED (h3.mem.global_error 0) := by
    have := test_wfi_records N .TEST_MIE_DISABLED env fuel h2 rely
    rw [e2] at this; exact this
  have ok5 : record_ok .TEST_MIE_ENABLED (h5.mem.global_error 1) := by
    have := test_wfi_records N .TEST_MIE_ENABLED env fuel h4 rely
    rw [e4] at this; exact this
  have ok0 : record_ok .TEST_MIE_DISABLED (h'.mem.global_error 0) :=
    (((r34.trans r45).trans r56).trans r6).records (main_may_store N 0) rely
      .TEST_MIE_DISABLED ok3
  have ok1 : record_ok .TEST_MIE_ENABLED (h'.mem.global_error 1) :=
    (r56.trans r6).records (main_may_store N 0) rely .TEST_MIE_ENABLED ok5
  obtain ⟨hw, s0, s1, s2, s3⟩ := sum_of_records _ _ ok0 ok1
  rw [hw] at hr
  refine ⟨hr, ok0, ok1, hr ▸ s0, hr ▸ s1, hr ▸ s2, hr ▸ s3, ?_⟩
  intro hartid test env2 fuel2 g
  obtain ⟨new, hl, hn⟩ := (test_wfi_run N hartid test env2 fuel2 g).log_grows
  refine ⟨new, hl, ?_⟩
  intro x hx t v he
  rcases hn x hx with hA | hs
  · rw [he] at hA
    have := test_wfi_may_store _ _ _ _ _ _ hA
    exact ⟨this.1, this.1 ▸ this.2⟩
  · rw [he] at hs
    cases hs

/-- C3, witness: two harts; hart 1 wakes `NUM_WFI` times and its handler never runs, so
the disabled test passes and the enabled test fails; `main` returns 2 on hart 0. -/
theorem main_result_witness :
    ∃ h', main 2 0 env_c3 5 (Hart.start Shared.zero) = some (2, h') ∧
      h'.mem.global_error 0 = error_t.ERR_NONE.toInt ∧
      h'.mem.global_error 1 = error_t.ERR_INTERRUPTS_ENABLED.toInt := by
  have hsome : (main 2 0 env_c3 5 (Hart.start Shared.zero)).isSome = true := by decide
  obtain ⟨⟨r, h'⟩, hm⟩ := Option.isSome_iff_exists.mp hsome
  have w := main_result 2 env_c3 5 (Hart.start Shared.zero) r h' (fun _ _ _ hrec => hrec) hm
  have hr : (main 2 0 env_c3 5 (Hart.start Shared.zero)).map Prod.fst = some 2 := by decide
  rw [hm] at hr
  simp only [Option.map_some', Option.some.injEq] at hr
  subst hr
  exact ⟨h', hm, w.2.2.2.2.2.1.mp rfl⟩

/-! ## The second sub-test (C4, C5) -/

/-- An iteration of the taker calls no taker. -/
theorem taker_calls_iteration (hartid : Nat) (test : test_t) (env : Env) (h : Hart) :
    taker_calls (taker_iteration hartid test env h).log = taker_calls h.log := by
  unfold taker_iteration
  by_cases ht : test = .TEST_MIE_DISABLED <;>
    simp [ht, taker_calls, wfi, Hart.suspend, Hart.exec, clear_software_interrupt,
      List.countP_cons]

/-- The loop of the taker calls no taker. -/
theorem taker_calls_loop (hartid : Nat) (test : test_t) (env : Env) (fuel : Nat) (h : Hart) :
    taker_calls (test_taker_loop hartid test env fuel h).hart.log = taker_calls h.log := by
  induction fuel generalizing h with
  | zero =>
    unfold test_taker_loop
    split <;> rfl
  | succ fuel ih =>
    unfold test_taker_loop
    split
    · rw [ih, taker_calls_iteration]
    · rfl

/-- A call of `test_taker` is one call. -/
theorem taker_calls_test_taker (hartid : Nat) (test : test_t) (env : Env) (fuel : Nat)
    (h : Hart) :
    taker_calls (test_taker hartid test env fuel h).hart.log = taker_calls h.log + 1 := by
  unfold test_taker
  rw [taker_calls_loop]
  simp [taker_calls, Hart.exec, List.countP_cons]

/-- C5, counterexample.  Two harts, disabled test; hart 1 checks in and never wakes.
Hart 0 is not the giver of the second sub-test; its `test_driver_hart_0` returns
`ERR_INTERRUPTS_DISABLED`, `test_wfi` returns on hart 0, and it has not called `test_taker`. -/
theorem hart_0_skips_round_b :
    ((0 : Nat) : Int) ≠ ((2 : Nat) : Int) - 1 ∧
    (test_wfi_to_barrier 2 0 .TEST_MIE_DISABLED env_c5 5 (Hart.start Shared.zero)).1
      = .ERR_INTERRUPTS_DISABLED ∧
    (test_wfi 2 0 .TEST_MIE_DISABLED env_c5 5 (Hart.start Shared.zero)).returned = true ∧
    taker_calls (test_wfi 2 0 .TEST_MIE_DISABLED env_c5 5 (Hart.start Shared.zero)).hart.log
      = 0 := by
  decide

/-- C5, amended.  On a hart other than the giver `N-1` of the second sub-test, `test_wfi`
calls `test_taker` in the second sub-test exactly when it got past the barrier with its
local `error == ERR_NONE`.  On a hart other than 0 the local `error` is `ERR_NONE` whatever
the first sub-test did, so these harts take the second sub-test once past the barrier; on
hart 0 it is the verdict of its own `test_driver_hart_0`, so hart 0 takes the second sub-test
only when that verdict is `ERR_NONE`. -/
theorem round_b_takers (N hartid : Nat) (test : test_t) (env : Env) (fuel : Nat) (h : Hart)
    (hg : (hartid : Int) ≠ (N : Int) - 1) :
    (hartid ≠ 0 → (test_wfi_to_barrier N hartid test env fuel h).1 = .ERR_NONE) ∧
    (hartid = 0 → (test_wfi_to_barrier N hartid test env fuel h).1 =
      (test_driver_hart_0 N test env
        (if test = .TEST_MIE_DISABLED then interrupt_global_disable hartid h
          else interrupt_global_enable hartid h)).1) ∧
    taker_calls (test_wfi N hartid test env fuel h).hart.log =
      taker_calls (test_wfi_to_barrier N hartid test env fuel h).2.hart.log +
        (if (test_wfi_to_barrier N hartid test env fuel h).2.returned = true ∧
            (test_wfi_to_barrier N hartid test env fuel h).1 = .ERR_NONE then 1 else 0) := by
  refine ⟨fun hne => test_wfi_to_barrier_error N hartid hne test env fuel h, ?_, ?_⟩
  · intro h0
    simp [test_wfi_to_barrier, subtest_1, h0]
  · simp only [test_wfi]
    cases hr : (test_wfi_to_barrier N hartid test env fuel h).2 with
    | blocked h1 => simp [Outcome.andThen, Outcome.hart, Outcome.returned]
    | done h1 =>
      simp only [Outcome.andThen, Outcome.returned, true_and, subtest_2, hg, if_false]
      by_cases he : (test_wfi_to_barrier N hartid test env fuel h).1 = .ERR_NONE
      · simp only [he, if_true]
        rw [taker_calls_test_taker]
        rfl
      · simp [he, Outcome.hart]

/-- C5, witness: hart 1 of three, released from the barrier, calls `test_taker` twice. -/
theorem round_b_takers_witness :
    taker_calls (test_wfi 3 1 .TEST_MIE_ENABLED env_w5 5 (Hart.start Shared.zero)).hart.log
      = 2 := by
  have w := round_b_takers 3 1 .TEST_MIE_ENABLED env_w5 5 (Hart.start Shared.zero) (by decide)
  exact w.2.2.trans (by decide)

/-- C4, the code at the failing input.  Two harts, enabled test, hart 1 (the giver of the
second sub-test).  When hart 1 leaves the barrier, `global_error[TEST_MIE_ENABLED]` holds
`ERR_INTERRUPTS_ENABLED`, recorded by hart 0 for the first sub-test.  Hart 1 still calls
`test_driver_hart_last`, and at the end of `test_wfi` the record holds `ERR_NONE`. -/
theorem round_b_overwrites_record :
    ((1 : Nat) : Int) = ((2 : Nat) : Int) - 1 ∧
    (test_wfi_to_barrier 2 1 .TEST_MIE_ENABLED env_c4 10 (Hart.start mem_c4)).2.returned = true ∧
    (test_wfi_to_barrier 2 1 .TEST_MIE_ENABLED env_c4 10 (Hart.start mem_c4)).2.hart.mem.global_error 1
      = error_t.ERR_INTERRUPTS_ENABLED.toInt ∧
    driver_last_calls (test_wfi 2 1 .TEST_MIE_ENABLED env_c4 10 (Hart.start mem_c4)).hart.log = 1 ∧
    (test_wfi 2 1 .TEST_MIE_ENABLED env_c4 10 (Hart.start mem_c4)).hart.mem.global_error 1
      = error_t.ERR_NONE.toInt := by
  decide

/-! ## The barrier across harts (C7) -/

/-- The cell that was written. -/
theorem upd_same {α : Type} (a : Nat → α) (i : Nat) (v : α) : upd a i v i = v := by
  simp [upd]

/-- A cell that was not written. -/
theorem upd_other {α : Type} (a : Nat → α) (i j : Nat) (v : α) (h : j ≠ i) :
    upd a i v j = a j := by
  simp [upd, h]

/-- A step of a hart in `synchronize_harts` keeps the invariant. -/
theorem sync_step_inv (N k : Nat) (hN : N < 2147483648) (h : Nat) (hh : h < N) (s : Bar)
    (inv : BarInv N k s) : BarInv N k (sync_step N h s) := by
  unfold sync_step
  cases hpc : s.pc h with
  | outside =>
    have hmono : ∀ g, s.calls g ≤ upd s.calls h (s.calls h + 1) g := by
      intro g
      by_cases hg : g = h
      · subst hg; rw [upd_same]; omega
      · rw [upd_other _ _ _ _ hg]
    have hpc' : ∀ h0 p, p ≠ SyncPc.poll → upd s.pc h .poll h0 = p → s.pc h0 = p := by
      intro h0 p hp e
      by_cases h1 : h0 = h
      · subst h1; rw [upd_same] at e; exact absurd e.symm hp
      · rwa [upd_other _ _ _ _ h1] at e
    refine ⟨?_, ?_, ?_, ?_, ?_, ?_, ?_⟩
    · intro g hg
      exact le_trans (inv.calls_ge g hg) (hmono g)
    · intro g hg hf
      simp only [Event.apply] at hf
      by_cases h1 : g = h
      · subst h1
        simp only [upd_same]
        have := inv.calls_ge g hg
        omega
      · rw [upd_other _ _ _ _ h1] at hf
        exact lt_of_lt_of_le (inv.flag g hg hf) (hmono g)
    · intro hgo g hg
      exact lt_of_lt_of_le (inv.go hgo g hg) (hmono g)
    · intro h0 i c e
      try dsimp only at e ⊢
      obtain ⟨a, b, c1, d⟩ := inv.count h0 i c (hpc' h0 _ (by simp) e)
      exact ⟨a, b, c1, fun hc g hg => lt_of_lt_of_le (d hc g hg) (hmono g)⟩
    · intro h0 c e hc g hg
      exact lt_of_lt_of_le (inv.test h0 c (hpc' h0 _ (by simp) e) hc g hg) (hmono g)
    · intro h0 e g hg
      exact lt_of_lt_of_le (inv.checkout h0 (hpc' h0 _ (by simp) e) g hg) (hmono g)
    · intro h0 hh0 hr g hg
      exact lt_of_lt_of_le (inv.rets h0 hh0 hr g hg) (hmono g)
  | poll =>
    by_cases hgo : s.mem.harts_go = false
    · simp only [hgo, if_true]
      have hpc' : ∀ h0 p, (p ≠ SyncPc.count 0 0 ∧ p ≠ .waiting) →
          upd s.pc h (if h = 0 then SyncPc.count 0 0 else .waiting) h0 = p → s.pc h0 = p := by
        intro h0 p hp e
        by_cases h1 : h0 = h
        · subst h1
          rw [upd_same] at e
          split at e
          · exact absurd e.symm hp.1
          · exact absurd e.symm hp.2
        · rwa [upd_other _ _ _ _ h1] at e
      refine ⟨inv.calls_ge, inv.flag, inv.go, ?_, ?_, ?_, inv.rets⟩
      · intro h0 i c e
        try dsimp only at e ⊢
        by_cases h1 : h0 = h
        · subst h1
          rw [upd_same] at e
          split at e
          · simp only [SyncPc.count.injEq] at e
            obtain ⟨rfl, rfl⟩ := e
            refine ⟨le_refl _, by simp, Nat.zero_le _, fun _ g hg => absurd hg (by omega)⟩
          · cases e
        · rw [upd_other _ _ _ _ h1] at e
          exact inv.count h0 i c e
      · intro h0 c e
        try dsimp only at e ⊢
        exact inv.test h0 c (hpc' h0 _ (by simp) e)
      · intro h0 e
        try dsimp only at e ⊢
        exact inv.checkout h0 (hpc' h0 _ (by simp) e)
    · have hgo2 : s.mem.harts_go = true := by simpa using hgo
      simp only [hgo2, Bool.true_eq_false, if_false]
      have hpc' : ∀ h0 p, p ≠ SyncPc.checkout → upd s.pc h .checkout h0 = p → s.pc h0 = p := by
        intro h0 p hp e
        by_cases h1 : h0 = h
        · subst h1; rw [upd_same] at e; exact absurd e.symm hp
        · rwa [upd_other _ _ _ _ h1] at e
      refine ⟨inv.calls_ge, inv.flag, inv.go, ?_, ?_, ?_, inv.rets⟩
      · intro h0 i c e
        try dsimp only at e ⊢
        exact inv.count h0 i c (hpc' h0 _ (by simp) e)
      · intro h0 c e
        try dsimp only at e ⊢
        exact inv.test h0 c (hpc' h0 _ (by simp) e)
      · intro h0 _
        exact inv.go hgo2
  | count i c =>
    obtain ⟨c0, ci, iN, call⟩ := inv.count h i c hpc
    by_cases hi : i < N
    · simp only [hi, if_true]
      refine ⟨inv.calls_ge, inv.flag, inv.go, ?_, ?_, ?_, inv.rets⟩
      · intro h0 i' c' e
        try dsimp only at e ⊢
        by_cases h1 : h0 = h
        · subst h1
          rw [upd_same] at e
          simp only [SyncPc.count.injEq] at e
          obtain ⟨rfl, rfl⟩ := e
          by_cases hf : s.mem.hart_checkin i = true
          · simp only [hf, if_true]
            rw [wrap32_id _ (by omega) (by omega)]
            refine ⟨by omega, by push_cast; omega, by omega, ?_⟩
            intro hc g hg
            have hci : c = (i : Int) := by push_cast at hc; omega
            by_cases hgi : g = i
            · subst hgi
              exact inv.flag g hi hf
            · exact call hci g (by omega)
          · simp only [hf, if_false]
            refine ⟨c0, by push_cast; omega, by omega, ?_⟩
            intro hc
            push_cast at hc
            omega
        · rw [upd_other _ _ _ _ h1] at e
          exact inv.count h0 i' c' e
      · intro h0 c' e
        try dsimp only at e ⊢
        by_cases h1 : h0 = h
        · subst h1; rw [upd_same] at e; cases e
        · rw [upd_other _ _ _ _ h1] at e
          exact inv.test h0 c' e
      · intro h0 e
        try dsimp only at e ⊢
        by_cases h1 : h0 = h
        · subst h1; rw [upd_same] at e; cases e
        · rw [upd_other _ _ _ _ h1] at e
          exact inv.checkout h0 e
    · simp only [hi, if_false]
      refine ⟨inv.calls_ge, inv.flag, inv.go, ?_, ?_, ?_, inv.rets⟩
      · intro h0 i' c' e
        try dsimp only at e ⊢
        by_cases h1 : h0 = h
        · subst h1; rw [upd_same] at e; cases e
        · rw [upd_other _ _ _ _ h1] at e
          exact inv.count h0 i' c' e
      · intro h0 c' e hc
        try dsimp only at e ⊢
        by_cases h1 : h0 = h
        · subst h1
          rw [upd_same] at e
          simp only [SyncPc.test.injEq] at e
          subst e
          have hiN : i = N := by omega
          subst hiN
          exact call hc
        · rw [upd_other _ _ _ _ h1] at e
          exact inv.test h0 c' e hc
      · intro h0 e
        try dsimp only at e ⊢
        by_cases h1 : h0 = h
        · subst h1; rw [upd_same] at e; cases e
        · rw [upd_other _ _ _ _ h1] at e
          exact inv.checkout h0 e
  | test c =>
    have hpc' : ∀ h0 p, p ≠ SyncPc.poll → upd s.pc h .poll h0 = p → s.pc h0 = p := by
      intro h0 p hp e
      by_cases h1 : h0 = h
      · subst h1; rw [upd_same] at e; exact absurd e.symm hp
      · rwa [upd_other _ _ _ _ h1] at e
    have hflag : (if c = (N : Int) then (Event.store_harts_go true).apply s.mem else s.mem).hart_checkin
        = s.mem.hart_checkin := by
      split <;> rfl
    refine ⟨inv.calls_ge, ?_, ?_, ?_, ?_, ?_, inv.rets⟩
    · intro g hg hf
      simp only [hflag] at hf
      exact inv.flag g hg hf
    · intro hgo
      by_cases hc : c = (N : Int)
      · exact inv.test h c hpc hc
      · simp only [hc, if_false] at hgo
        exact inv.go hgo
    · intro h0 i' c' e
      try dsimp only at e ⊢
      exact inv.count h0 i' c' (hpc' h0 _ (by simp) e)
    · intro h0 c' e
      try dsimp only at e ⊢
      exact inv.test h0 c' (hpc' h0 _ (by simp) e)
    · intro h0 e
      try dsimp only at e ⊢
      exact inv.checkout h0 (hpc' h0 _ (by simp) e)
  | waiting =>
    have hpc' : ∀ h0 p, p ≠ SyncPc.poll → upd s.pc h .poll h0 = p → s.pc h0 = p := by
      intro h0 p hp e
      by_cases h1 : h0 = h
      · subst h1; rw [upd_same] at e; exact absurd e.symm hp
      · rwa [upd_other _ _ _ _ h1] at e
    refine ⟨inv.calls_ge, inv.flag, inv.go, ?_, ?_, ?_, inv.rets⟩
    · intro h0 i' c' e
      try dsimp only at e ⊢
      exact inv.count h0 i' c' (hpc' h0 _ (by simp) e)
    · intro h0 c' e
      try dsimp only at e ⊢
      exact inv.test h0 c' (hpc' h0 _ (by simp) e)
    · intro h0 e
      try dsimp only at e ⊢
      exact inv.checkout h0 (hpc' h0 _ (by simp) e)
  | checkout =>
    have hall := inv.checkout h hpc
    have hpc' : ∀ h0 p, p ≠ SyncPc.outside → upd s.pc h .outside h0 = p → s.pc h0 = p := by
      intro h0 p hp e
      by_cases h1 : h0 = h
      · subst h1; rw [upd_same] at e; exact absurd e.symm hp
      · rwa [upd_other _ _ _ _ h1] at e
    refine ⟨inv.calls_ge, ?_, inv.go, ?_, ?_, ?_, ?_⟩
    · intro g hg _
      exact hall g hg
    · intro h0 i' c' e
      try dsimp only at e ⊢
      exact inv.count h0 i' c' (hpc' h0 _ (by simp) e)
    · intro h0 c' e
      try dsimp only at e ⊢
      exact inv.test h0 c' (hpc' h0 _ (by simp) e)
    · intro h0 _
      exact hall
    · intro h0 _ _
      exact hall

/-- Every action keeps the invariant. -/
theorem act_inv (N k : Nat) (hN : N < 2147483648) (s : Bar) (a : Action)
    (inv : BarInv N k s) : BarInv N k (act N s a) := by
  cases a with
  | sync h =>
    simp only [act]
    split
    · rename_i hg
      exact sync_step_inv N k hN h hg.1 s inv
    · exact inv
  | giver_clear h =>
    simp only [act]
    split
    · refine ⟨inv.calls_ge, inv.flag, ?_, inv.count, inv.test, inv.checkout, inv.rets⟩
      intro hgo
      cases hgo
    · exact inv

/-- Every schedule keeps the invariant. -/
theorem run_inv (N k : Nat) (hN : N < 2147483648) (sched : List Action) (s : Bar)
    (inv : BarInv N k s) : BarInv N k (run N sched s) := by
  induction sched generalizing s with
  | nil => exact inv
  | cons a l ih =>
    simp only [run, List.foldl_cons]
    exact ih _ (act_inv N k hN s a inv)

/-- C7, counterexample.  Two harts, from reset.  Hart 1 checks in and has not yet seen the
release.  Hart 0 completes the first cycle, clears `harts_go` in `test_driver_hart_0`, calls
`synchronize_harts` again, counts its own flag and the flag hart 1 set in the first cycle,
releases and returns: hart 0 is back from its second call while hart 1 has checked in once
and is still polling in its first call. -/
theorem barrier_fails_on_reentry :
    (run 2 sched_c7 Bar.reset).rets 0 = 2 ∧ (run 2 sched_c7 Bar.reset).calls 1 = 1 ∧
    (run 2 sched_c7 Bar.reset).pc 1 = .poll := by
  decide

/-- C7, amended.  Take a state between two barrier cycles in which the barrier is drained:
`harts_go == FALSE`, every check-in flag `FALSE`, every hart outside `synchronize_harts` and
back from `k` calls.  Then under every schedule, no hart is back from call `k + 1` before
all `N` harts have checked in for call `k + 1`.  The first cycle of the program starts from
such a state. -/
theorem barrier_from_drained_state (N k : Nat) (hN : N < 2147483648) (s0 : Bar)
    (hgo : s0.mem.harts_go = false) (hflags : ∀ g, g < N → s0.mem.hart_checkin g = false)
    (hpc : ∀ g, s0.pc g = .outside) (hcalls : ∀ g, g < N → s0.calls g = k)
    (hrets : ∀ g, g < N → s0.rets g = k) (sched : List Action) (h g : Nat) (hh : h < N)
    (hg : g < N) (hret : k < (run N sched s0).rets h) : k < (run N sched s0).calls g := by
  have inv0 : BarInv N k s0 := by
    refine ⟨?_, ?_, ?_, ?_, ?_, ?_, ?_⟩
    · intro g hg; rw [hcalls g hg]
    · intro g hg hf; rw [hflags g hg] at hf; cases hf
    · intro h1; rw [hgo] at h1; cases h1
    · intro h0 i c e; rw [hpc] at e; cases e
    · intro h0 c e; rw [hpc] at e; cases e
    · intro h0 e; rw [hpc] at e; cases e
    · intro h0 hh0 hr; rw [hrets h0 hh0] at hr; omega
  exact (run_inv N k hN sched s0 inv0).rets h hh hret g hg

/-- C7, witness: two harts from reset; hart 0 is back from the first cycle and hart 1
has checked in. -/
theorem barrier_from_drained_state_witness :
    (run 2 sched_w7 Bar.reset).rets 0 = 1 ∧ 0 < (run 2 sched_w7 Bar.reset).calls 1 := by
  refine ⟨by decide, ?_⟩
  exact barrier_from_drained_state 2 0 (by decide) Bar.reset rfl (fun _ _ => rfl)
    (fun _ => rfl) (fun _ _ => rfl) (fun _ _ => rfl) sched_w7 0 1 (by decide) (by decide)
    (by decide)

end WfiMulticore
